import Mathlib

set_option maxHeartbeats 1000000

set_option maxRecDepth 100000

/-- JSON value as produced by `json.load`: `null`, number, string, array
or object (ordered key/value list).  Python `None` is `J.null`. -/
inductive J where
  | null
  | num (q : ℚ)
  | str (s : String)
  | arr (xs : List J)
  | obj (kvs : List (String × J))

/-- A parsed JSON document (a Python dict), in insertion order. -/
abbrev JDoc := List (String × J)

/-- Python `d.get(k, default)`: the first binding of `k`, else the default. -/
def pyDictGet (d : JDoc) (k : String) (dflt : J) : J :=
  match d.find? (fun p => p.1 == k) with
  | some p => p.2
  | none => dflt

/-- Python `d[k] = v` on an ordered dict: overwrite in place when the key
is present, otherwise append the new binding at the end. -/
def dictInsert (d : JDoc) (k : String) (v : J) : JDoc :=
  if d.any (fun p => p.1 == k) then d.map (fun p => if p.1 == k then (k, v) else p)
  else d ++ [(k, v)]

/-- Keys of a document, in order. -/
def keysOf (d : JDoc) : List String := d.map Prod.fst

/-- Stat names of a `detailed_stats` summary, in the order of the dict
literal in `audio_features.py` (also the fallback order hard-coded in
`flatten_audio_features`). -/
def statKeys : List String :=
  ["mean", "variance", "median", "skewness", "kurtosis", "min", "max"]

/-- The four single-`StatSummary` fields, in the order of the loop in
`merge_data.py` lines 23–28. -/
def singleStatsNames : List String :=
  ["chroma_stft_stats", "spectral_centroid_stats", "zero_crossing_rate_stats", "rms_stats"]

/-- Body of the single-stats loop of `flatten_audio_features`
(lines 29–36) applied to the looked-up value `v` of field `name`:
if `v` is a dict, copy every entry under `name_{k}`; otherwise store
`None` for each of the seven stat sub-fields. -/
def flattenSingleCore (v : J) (flat : JDoc) (name : String) : JDoc :=
  match v with
  | .obj kvs => kvs.foldl (fun f p => dictInsert f (name ++ "_" ++ p.1) p.2) flat
  | _ => statKeys.foldl (fun f k => dictInsert f (name ++ "_" ++ k) J.null) flat

/-- One iteration of the single-stats loop: look the field up with
default `{}` and process it. -/
def flattenSingle (audio : JDoc) (flat : JDoc) (name : String) : JDoc :=
  flattenSingleCore (pyDictGet audio name (J.obj [])) flat name

/-- The `else` branch of a multi-band block (e.g. lines 45–49): store
`None` columns `name_{i}_{k}` for `i < n` and the seven stat names. -/
def bandFallback (name : String) (n : Nat) (flat : JDoc) : JDoc :=
  (List.range n).foldl
    (fun f i => statKeys.foldl
      (fun f2 k => dictInsert f2 (name ++ "_" ++ toString i ++ "_" ++ k) J.null) f) flat

/-- Body of a multi-band block of `flatten_audio_features`
(lines 40–49, 52–60, 62–71) applied to the looked-up value `v`:
if `v` is a non-empty list, enumerate it and copy each element's entries
under `name_{i}_{k}` — calling `.items()` on a non-dict element raises
`AttributeError`; otherwise emit the `n`-band `None` fallback. -/
def bandStep (name : String) (f : JDoc) (p : Nat × J) : Except String JDoc :=
  match p.2 with
  | .obj kvs =>
    Except.ok (kvs.foldl
      (fun f2 q => dictInsert f2 (name ++ "_" ++ toString p.1 ++ "_" ++ q.1) q.2) f)
  | _ => Except.error "AttributeError: object has no attribute items"

def flattenBandCore (v : J) (flat : JDoc) (name : String) (n : Nat) :
    Except String JDoc :=
  match v with
  | .arr items =>
    if items.length > 0 then items.enum.foldlM (bandStep name) flat
    else Except.ok (bandFallback name n flat)
  | _ => Except.ok (bandFallback name n flat)

/-- One multi-band block: look the field up with default `[]` and process it. -/
def flattenBand (audio : JDoc) (flat : JDoc) (name : String) (n : Nat) :
    Except String JDoc :=
  flattenBandCore (pyDictGet audio name (J.arr [])) flat name n

/-- Model of `flatten_audio_features` (`merge_data.py` lines 5–73).
The result is `Except` because the multi-band loops call `.items()` on
list elements without an `isinstance` check, which raises on non-dicts. -/
def flatten_audio_features (audio_data : JDoc) : Except String JDoc := do
  let flat : JDoc := []
  let flat := dictInsert flat "tempo" (pyDictGet audio_data "tempo" J.null)
  let flat := dictInsert flat "danceability" (pyDictGet audio_data "danceability" J.null)
  let flat := dictInsert flat "key" (pyDictGet audio_data "key" J.null)
  let flat := dictInsert flat "duration" (pyDictGet audio_data "duration" J.null)
  let flat := singleStatsNames.foldl (flattenSingle audio_data) flat
  let flat ← flattenBand audio_data flat "mfcc_stats" 20
  let flat ← flattenBand audio_data flat "spectral_contrast_stats" 7
  let flat ← flattenBand audio_data flat "tonnetz_stats" 6
  return flat

/-- The four top-level scalar columns. -/
def scalarCols : List String := ["tempo", "danceability", "key", "duration"]

/-- The seven stat columns sharing the prefix `pre`. -/
def blockCols (pre : String) : List String := statKeys.map (fun k => pre ++ k)

/-- The column-name prefixes of the four single-stats fields. -/
def singlesPre : List String := singleStatsNames.map (fun n => n ++ "_")

/-- The per-band column-name prefixes `name_{i}_` of one multi-band field. -/
def bandPres (name : String) (n : Nat) : List String :=
  (List.range n).map (fun i => name ++ "_" ++ toString i ++ "_")

/-- All 37 stat-block prefixes, in emission order. -/
def allPrefixes : List String :=
  singlesPre ++ bandPres "mfcc_stats" 20 ++ bandPres "spectral_contrast_stats" 7
    ++ bandPres "tonnetz_stats" 6

/-- The full fixed column schema emitted for a present well-formed bundle,
in emission order. -/
def fullSchema : List String := scalarCols ++ allPrefixes.flatMap blockCols

/-- The stat-block prefixes actually emitted for the empty document `{}`:
only the three multi-band fallbacks.  Because `audio_data.get(name, {})`
defaults to `{}`, which *is* a dict with no items, the single-stats loop
emits nothing for an absent field. -/
def emptyPrefixes : List String :=
  bandPres "mfcc_stats" 20 ++ bandPres "spectral_contrast_stats" 7
    ++ bandPres "tonnetz_stats" 6

/-- The column set actually emitted for the empty document `{}` (the
absent-bundle case in `main`). -/
def emptySchema : List String := scalarCols ++ emptyPrefixes.flatMap blockCols

/-- Columns `ks` paired with the `None` sentinel. -/
def nullPairs (ks : List String) : JDoc := ks.map (fun k => (k, J.null))

/-- The flat row produced for the empty document: every emitted column
holds the `None` sentinel. -/
def emptyFlatRow : JDoc := nullPairs emptySchema

/-- Is there a position, within the length of both lists, where they
differ? -/
def firstDiffB : List Char → List Char → Bool
  | a :: as, b :: bs => (a != b) || firstDiffB as bs
  | _, _ => false

/-- Two strings are separated when they differ at some position that both
of them have; then no pair of suffixes can make them equal. -/
def sep (s t : String) : Bool := firstDiffB s.data t.data

/-- Pairwise separation of a list of strings, as one boolean. -/
def pairwiseSepB : List String → Bool
  | [] => true
  | s :: rest => rest.all (fun t => sep s t) && pairwiseSepB rest

/-- Every string in `ps` is separated from `t`. -/
def allSepB (ps : List String) (t : String) : Bool := ps.all (fun p => sep p t)

/-- Fold inserting a list of key/value pairs in order. -/
def insertPairs (f : JDoc) (ps : JDoc) : JDoc :=
  ps.foldl (fun a p => dictInsert a p.1 p.2) f

/-- The values the four top-level assignments of `flatten_audio_features`
store first: looked-up scalars (or `None`). -/
def scalarRow (doc : JDoc) : JDoc :=
  [("tempo", pyDictGet doc "tempo" J.null),
   ("danceability", pyDictGet doc "danceability" J.null),
   ("key", pyDictGet doc "key" J.null),
   ("duration", pyDictGet doc "duration" J.null)]

/-- The pairs a single-stats dict value contributes: its entries, keys
prefixed with the field name and an underscore. -/
def singleBlock (name : String) (kvs : JDoc) : JDoc :=
  kvs.map (fun p => (name ++ "_" ++ p.1, p.2))

/-- Shape of a well-formed persisted feature-bundle document, as produced
by `extract_audio_features`: each of the four single-stats fields is a
dict with exactly the seven stat keys, and each multi-band field is a
list of the fixed length (20/7/6) of such dicts.  Values are arbitrary. -/
def WellFormedDoc (doc : JDoc) : Prop :=
  (∃ kvs, pyDictGet doc "chroma_stft_stats" (J.obj []) = J.obj kvs ∧ keysOf kvs = statKeys) ∧
  (∃ kvs, pyDictGet doc "spectral_centroid_stats" (J.obj []) = J.obj kvs ∧ keysOf kvs = statKeys) ∧
  (∃ kvs, pyDictGet doc "zero_crossing_rate_stats" (J.obj []) = J.obj kvs ∧ keysOf kvs = statKeys) ∧
  (∃ kvs, pyDictGet doc "rms_stats" (J.obj []) = J.obj kvs ∧ keysOf kvs = statKeys) ∧
  (∃ items, pyDictGet doc "mfcc_stats" (J.arr []) = J.arr items ∧ items.length = 20 ∧
    ∀ o ∈ items, ∃ kvs, o = J.obj kvs ∧ keysOf kvs = statKeys) ∧
  (∃ items, pyDictGet doc "spectral_contrast_stats" (J.arr []) = J.arr items ∧ items.length = 7 ∧
    ∀ o ∈ items, ∃ kvs, o = J.obj kvs ∧ keysOf kvs = statKeys) ∧
  (∃ items, pyDictGet doc "tonnetz_stats" (J.arr []) = J.arr items ∧ items.length = 6 ∧
    ∀ o ∈ items, ∃ kvs, o = J.obj kvs ∧ keysOf kvs = statKeys)

/-- A seven-stat summary object with all values `q`. -/
def statsObjOf (q : ℚ) : J := J.obj (statKeys.map (fun k => (k, J.num q)))

/-- A concrete well-formed feature bundle of the exact shape produced by
`extract_audio_features`. -/
def sampleBundle : JDoc :=
  [("tempo", J.num 120), ("danceability", J.num (1/2)), ("key", J.str "C"),
   ("duration", J.num 180),
   ("chroma_stft_stats", statsObjOf 1), ("spectral_centroid_stats", statsObjOf 2),
   ("zero_crossing_rate_stats", statsObjOf 3), ("rms_stats", statsObjOf 4),
   ("mfcc_stats", J.arr ((List.range 20).map (fun _ => statsObjOf 5))),
   ("spectral_contrast_stats", J.arr ((List.range 7).map (fun _ => statsObjOf 6))),
   ("tonnetz_stats", J.arr ((List.range 6).map (fun _ => statsObjOf 7)))]

/-- A document whose persisted `mfcc_stats` array has the wrong length
(1 instead of 20) but is otherwise a well-formed bundle. -/
def mfccShortDoc : JDoc :=
  [("tempo", J.num 120), ("danceability", J.num (1/2)), ("key", J.str "C"),
   ("duration", J.num 180),
   ("chroma_stft_stats", statsObjOf 1), ("spectral_centroid_stats", statsObjOf 2),
   ("zero_crossing_rate_stats", statsObjOf 3), ("rms_stats", statsObjOf 4),
   ("mfcc_stats", J.arr [statsObjOf 5]),
   ("spectral_contrast_stats", J.arr ((List.range 7).map (fun _ => statsObjOf 6))),
   ("tonnetz_stats", J.arr ((List.range 6).map (fun _ => statsObjOf 7)))]

/-- The 130 columns `flatten_audio_features` emits for `mfccShortDoc`:
mfcc columns exist only for the one present band. -/
def mfccShortSchema : List String :=
  scalarCols ++ (singlesPre ++ bandPres "mfcc_stats" 1
    ++ bandPres "spectral_contrast_stats" 7 ++ bandPres "tonnetz_stats" 6).flatMap blockCols

/-- A document where a single-stats field holds a non-dict and a band
array holds a non-dict element: flattening raises `AttributeError`. -/
def badBandDoc : JDoc :=
  [("chroma_stft_stats", J.num 5), ("mfcc_stats", J.arr [J.num 5])]

/-- The three multi-band fields of a document, when present as lists,
contain only dicts — the condition under which the enumerated band loops
cannot raise `AttributeError`. -/
def BandsOk (doc : JDoc) : Prop :=
  ∀ bname ∈ (["mfcc_stats", "spectral_contrast_stats", "tonnetz_stats"] : List String),
    ∀ items, pyDictGet doc bname (J.arr []) = J.arr items →
      ∀ o ∈ items, ∃ kvs, o = J.obj kvs

/-- Model of `np.mean`: sum over length. -/
def np_mean (xs : List ℚ) : ℚ := xs.sum / xs.length

/-- Central moment of order `m` with population denominator `N`. -/
def centralMoment (xs : List ℚ) (m : Nat) : ℚ :=
  (xs.map (fun x => (x - np_mean xs) ^ m)).sum / xs.length

/-- Model of `np.var` with the default `ddof=0`: population variance. -/
def np_var (xs : List ℚ) : ℚ := centralMoment xs 2

/-- Model of `np.median`: middle element of the sorted data, or the
average of the two middle elements for even length. -/
def np_median (xs : List ℚ) : ℚ :=
  if xs.length % 2 = 1 then (xs.mergeSort (fun a b => decide (a ≤ b))).getD (xs.length / 2) 0
  else ((xs.mergeSort (fun a b => decide (a ≤ b))).getD (xs.length / 2 - 1) 0
    + (xs.mergeSort (fun a b => decide (a ≤ b))).getD (xs.length / 2) 0) / 2

/-- Model of `scipy.stats.skew` with the default `bias=True`:
`g1 = m3 / m2^1.5`.  The value is irrational in general so it lives in
`ℝ` (the one non-executable statistic). -/
noncomputable def scipy_skew (xs : List ℚ) : ℝ :=
  (centralMoment xs 3 : ℝ) / Real.sqrt (centralMoment xs 2 : ℚ) ^ 3

/-- Model of `scipy.stats.kurtosis` with the defaults
`fisher=True, bias=True`: the excess kurtosis `m4 / m2^2 - 3`. -/
def scipy_kurtosis (xs : List ℚ) : ℚ :=
  centralMoment xs 4 / centralMoment xs 2 ^ 2 - 3

/-- Model of `np.min`, which raises `ValueError` on a zero-size array. -/
def np_min : List ℚ → Except String ℚ
  | [] =>
    Except.error "ValueError: zero-size array to reduction operation minimum which has no identity"
  | x :: xs => Except.ok (xs.foldl min x)

/-- Model of `np.max`, which raises `ValueError` on a zero-size array. -/
def np_max : List ℚ → Except String ℚ
  | [] =>
    Except.error "ValueError: zero-size array to reduction operation maximum which has no identity"
  | x :: xs => Except.ok (xs.foldl max x)

/-- The seven summary statistics (the `StatSummary` record), in the order
of the dict literal of `detailed_stats`. -/
structure StatSummary where
  mean : ℚ
  variance : ℚ
  median : ℚ
  skewness : ℝ
  kurtosis : ℚ
  min : ℚ
  max : ℚ

/-- Model of `detailed_stats`.  On empty input NumPy computes NaN means
(with warnings) for the first five entries of the dict literal and then
`np.min` raises `ValueError`, so the call as a whole raises: modelled as
the error case, whose message is the `np.min` one. -/
noncomputable def detailed_stats (feature_array : List ℚ) : Except String StatSummary :=
  match np_min feature_array, np_max feature_array with
  | Except.ok mn, Except.ok mx =>
    Except.ok ⟨np_mean feature_array, np_var feature_array, np_median feature_array,
      scipy_skew feature_array, scipy_kurtosis feature_array, mn, mx⟩
  | _, _ =>
    Except.error "ValueError: zero-size array to reduction operation minimum which has no identity"

/-- Model of `np.clip(x, lo, hi)`. -/
def np_clip (x lo hi : ℚ) : ℚ := min (max x lo) hi

/-- Model of `beat_strength = float(np.mean(rms[0, beat_frames]))`: the
mean of the frame-0 RMS energies at the detected beat positions
(fancy indexing; beat frames are valid indices into the RMS row). -/
def beat_strength (rms0 : List ℚ) (beat_frames : List Nat) : ℚ :=
  np_mean (beat_frames.map (fun i => rms0.getD i 0))

/-- Model of `danceability_raw = (tempo / 200) * beat_strength * 10`. -/
def danceability_raw (tempo : ℚ) (rms0 : List ℚ) (beat_frames : List Nat) : ℚ :=
  (tempo / 200) * beat_strength rms0 beat_frames * 10

/-- Model of `danceability = float(np.clip(danceability_raw, 0, 1))`. -/
def danceability (tempo : ℚ) (rms0 : List ℚ) (beat_frames : List Nat) : ℚ :=
  np_clip (danceability_raw tempo rms0 beat_frames) 0 1

/-- One catalog row of `contestants.csv` (string-typed, per
`pd.read_csv(..., dtype=str)`); only the fields `main` touches. -/
structure CatalogRow where
  year : String
  to_country : String
  performer : String
  song : String

/-- Per-row behaviour of the loop in `main` (lines 108–124): flatten the
row's JSON document when the resolver finds one, else flatten the empty
dict.  The resolver abstracts `find_json_path` plus the file check and
`json.load`. -/
def rowFeatures (resolve : CatalogRow → Option JDoc) (r : CatalogRow) : Except String JDoc :=
  match resolve r with
  | some doc => flatten_audio_features doc
  | none => flatten_audio_features []

/-- Model of `main`: one flat row per catalog row, in order, concatenated
column-wise onto the catalog row (`pd.concat([df, audio_features_df],
axis=1)` aligns the two frames on the shared `0..N-1` index). -/
def mainTable (rows : List CatalogRow) (resolve : CatalogRow → Option JDoc) :
    Except String (List (CatalogRow × JDoc)) := do
  let feats ← rows.mapM (rowFeatures resolve)
  return rows.zip feats

/-- The one line `main` prints at the end of a run (line 132). -/
def successMessage : String := "Successfully created contestants_with_audio_features.csv."

/-- The console output of a `main` run: the single success line.  There is
no degraded-row summary in the source. -/
def mainMessages (rows : List CatalogRow) (resolve : CatalogRow → Option JDoc) :
    Except String (List String) := do
  let _ ← mainTable rows resolve
  return [successMessage]

/-- Column list of a flattening result (empty on error). -/
def okKeys (e : Except String JDoc) : List String :=
  match e with
  | Except.ok f => keysOf f
  | Except.error _ => []

/-- A concrete catalog row. -/
def row0 : CatalogRow := ⟨"1956", "Switzerland", "Lys Assia", "Refrain"⟩

/-- Another concrete catalog row. -/
def row1 : CatalogRow := ⟨"1956", "Germany", "Freddy Quinn", "So geht das jede Nacht"⟩

/-- Map a (field, optional band index, stat name) triple of the fixed
schema to its column name, exactly as the f-strings of
`flatten_audio_features` do. -/
def colName : String × Option Nat × String → String
  | (f, none, s) => f ++ "_" ++ s
  | (f, some i, s) => f ++ "_" ++ toString i ++ "_" ++ s

/-- All (field, index, stat) triples of the fixed schema, in emission
order. -/
def schemaTriples : List (String × Option Nat × String) :=
  singleStatsNames.flatMap (fun n => statKeys.map (fun k => (n, none, k)))
    ++ (List.range 20).flatMap (fun i => statKeys.map (fun k => ("mfcc_stats", some i, k)))
    ++ (List.range 7).flatMap
      (fun i => statKeys.map (fun k => ("spectral_contrast_stats", some i, k)))
    ++ (List.range 6).flatMap (fun i => statKeys.map (fun k => ("tonnetz_stats", some i, k)))

theorem firstDiffB_append_ne :
    ∀ (u v : List Char), firstDiffB u v = true → ∀ (a b : List Char), u ++ a ≠ v ++ b := by
  intro u
  induction u with
  | nil => intro v h; cases v <;> simp [firstDiffB] at h
  | cons c cs ih =>
    intro v h a b
    cases v with
    | nil => simp [firstDiffB] at h
    | cons d ds =>
      simp only [firstDiffB, Bool.or_eq_true, bne_iff_ne, ne_eq] at h
      intro he
      simp only [List.cons_append, List.cons.injEq] at he
      rcases h with h | h
      · exact h he.1
      · exact ih ds h a b he.2

theorem sep_append_ne {s t : String} (h : sep s t = true) (a b : String) :
    s ++ a ≠ t ++ b := by
  intro he
  exact firstDiffB_append_ne s.data t.data h a.data b.data
    (by rw [← String.data_append, ← String.data_append, he])

theorem sep_ne_right {s t : String} (h : sep s t = true) (b : String) : s ≠ t ++ b := by
  have := sep_append_ne h "" b
  rwa [String.append_empty] at this

theorem sep_ne_left {s t : String} (h : sep s t = true) (a : String) : s ++ a ≠ t := by
  have := sep_append_ne h a ""
  rwa [String.append_empty] at this

theorem sep_ne {s t : String} (h : sep s t = true) : s ≠ t := by
  have := sep_append_ne h "" ""
  rwa [String.append_empty, String.append_empty] at this

theorem pairwiseSepB_pairwise :
    ∀ l : List String, pairwiseSepB l = true → l.Pairwise (fun s t => sep s t = true) := by
  intro l
  induction l with
  | nil => intro _; exact List.Pairwise.nil
  | cons s rest ih =>
    intro h
    simp only [pairwiseSepB, Bool.and_eq_true, List.all_eq_true] at h
    exact List.Pairwise.cons h.1 (ih h.2)

theorem allSepB_spec {ps : List String} {t : String} (h : allSepB ps t = true) :
    ∀ p ∈ ps, sep p t = true := by
  simpa [allSepB, List.all_eq_true] using h

/-- The one bulk disequality fact: the four scalar column names and all 37
stat-block prefixes are pairwise separated. -/
theorem schema_prefixes_pairwise_sep :
    (scalarCols ++ allPrefixes).Pairwise (fun s t => sep s t = true) :=
  pairwiseSepB_pairwise _ (by decide)

/-- The seven stat names are pairwise separated. -/
theorem statKeys_pairwise_sep : statKeys.Pairwise (fun s t => sep s t = true) :=
  pairwiseSepB_pairwise _ (by decide)

theorem exc_bind_ok {α β ε : Type} (x : α) (g : α → Except ε β) :
    (Except.ok x >>= g) = g x := rfl

theorem exc_pure_eq {α ε : Type} (x : α) : (pure x : Except ε α) = Except.ok x := rfl

theorem dictInsert_fresh {f : JDoc} {k : String} (v : J) (h : ∀ p ∈ f, p.1 ≠ k) :
    dictInsert f k v = f ++ [(k, v)] := by
  have hany : f.any (fun p => p.1 == k) = false := by
    simp only [List.any_eq_false]
    intro p hp
    simpa using h p hp
  simp [dictInsert, hany]

theorem insertPairs_nil (f : JDoc) : insertPairs f [] = f := rfl

theorem insertPairs_split (f : JDoc) (ps qs : JDoc) :
    insertPairs f (ps ++ qs) = insertPairs (insertPairs f ps) qs :=
  List.foldl_append _ _ _ _

theorem insertPairs_append :
    ∀ {ps : JDoc} {f : JDoc}, (∀ q ∈ ps, ∀ p ∈ f, p.1 ≠ q.1) →
      ps.Pairwise (fun p q => p.1 ≠ q.1) →
      insertPairs f ps = f ++ ps := by
  intro ps
  induction ps with
  | nil => intro f _ _; simp [insertPairs]
  | cons q qs ih =>
    intro f hf hp
    rw [List.pairwise_cons] at hp
    have h1 : dictInsert f q.1 q.2 = f ++ [q] :=
      dictInsert_fresh _ (fun p hp' => hf q (List.mem_cons_self _ _) p hp')
    have h2 : insertPairs f (q :: qs) = insertPairs (f ++ [q]) qs := by
      simp only [insertPairs, List.foldl_cons, h1]
    rw [h2, ih ?_ hp.2]
    · simp
    · intro q' hq' p hp'
      rcases List.mem_append.1 hp' with hpf | hpq
      · exact hf q' (List.mem_cons_of_mem _ hq') p hpf
      · have : p = q := by simpa using hpq
        subst this
        exact hp.1 q' hq'

theorem keysOf_append (f g : JDoc) : keysOf (f ++ g) = keysOf f ++ keysOf g :=
  List.map_append _ _ _

theorem keysOf_nullPairs (ks : List String) : keysOf (nullPairs ks) = ks := by
  simp only [keysOf, nullPairs, List.map_map]
  exact List.map_id ks

theorem string_append_left_cancel {s a b : String} (h : s ++ a = s ++ b) : a = b := by
  apply String.ext
  have := congrArg String.data h
  rw [String.data_append, String.data_append] at this
  exact List.append_cancel_left this

theorem mem_flatMap_blockCols {x : String} {pres : List String} :
    x ∈ pres.flatMap blockCols ↔ ∃ pre ∈ pres, ∃ k ∈ statKeys, x = pre ++ k := by
  simp only [blockCols, List.mem_flatMap, List.mem_map]
  constructor
  · rintro ⟨pre, hpre, k, hk, rfl⟩
    exact ⟨pre, hpre, k, hk, rfl⟩
  · rintro ⟨pre, hpre, k, hk, rfl⟩
    exact ⟨pre, hpre, k, hk, rfl⟩

theorem nodup_blockCols (pre : String) : (blockCols pre).Nodup := by
  unfold blockCols
  rw [List.Nodup, List.pairwise_map]
  exact statKeys_pairwise_sep.imp
    (fun h he => sep_ne h (string_append_left_cancel he))

theorem nodup_flatMap_blockCols {pres : List String}
    (h : pres.Pairwise (fun s t => sep s t = true)) :
    (pres.flatMap blockCols).Nodup := by
  induction pres with
  | nil => simp
  | cons p ps ih =>
    rw [List.pairwise_cons] at h
    simp only [List.flatMap_cons]
    refine List.Nodup.append (nodup_blockCols p) (ih h.2) ?_
    intro x hx hx'
    unfold blockCols at hx
    obtain ⟨k, hk, rfl⟩ := List.mem_map.1 hx
    obtain ⟨pre', hpre', k', hk', he⟩ := mem_flatMap_blockCols.1 hx'
    exact sep_append_ne (h.1 pre' hpre') k k' he

/-- One stage of the flattener: inserting a stat block whose keys are
`pres.flatMap blockCols` into an accumulator whose keys are the scalar
columns followed by the blocks of `done` appends it, provided all the
involved prefixes are pairwise separated. -/
theorem stage_insert {facc ps : JDoc} {done pres : List String}
    (hk : keysOf facc = scalarCols ++ done.flatMap blockCols)
    (hp : keysOf ps = pres.flatMap blockCols)
    (hsep : (scalarCols ++ (done ++ pres)).Pairwise (fun s t => sep s t = true)) :
    insertPairs facc ps = facc ++ ps ∧
      keysOf (facc ++ ps) = scalarCols ++ (done ++ pres).flatMap blockCols := by
  rw [List.pairwise_append] at hsep
  obtain ⟨hsc, hdp, hcross⟩ := hsep
  rw [List.pairwise_append] at hdp
  obtain ⟨hdone, hpres, hdp'⟩ := hdp
  have hfresh : ∀ q ∈ ps, ∀ p ∈ facc, p.1 ≠ q.1 := by
    intro q hq p hp'
    have hq1 : q.1 ∈ pres.flatMap blockCols := by
      rw [← hp]; exact List.mem_map_of_mem _ hq
    have hp1 : p.1 ∈ scalarCols ++ done.flatMap blockCols := by
      rw [← hk]; exact List.mem_map_of_mem _ hp'
    obtain ⟨pre, hpre, k, hkk, hqe⟩ := mem_flatMap_blockCols.1 hq1
    rcases List.mem_append.1 hp1 with hs | hd
    · have hsp := hcross p.1 hs pre (List.mem_append_right _ hpre)
      rw [hqe]; exact sep_ne_right hsp k
    · obtain ⟨pre', hpre', k', hk', hpe⟩ := mem_flatMap_blockCols.1 hd
      have hsp := hdp' pre' hpre' pre hpre
      rw [hpe, hqe]; exact sep_append_ne hsp k' k
  have hnd : ps.Pairwise (fun p q => p.1 ≠ q.1) := by
    have h0 : (keysOf ps).Pairwise (fun a b => a ≠ b) := by
      rw [hp]; exact nodup_flatMap_blockCols hpres
    rw [keysOf, List.pairwise_map] at h0
    exact h0
  refine ⟨insertPairs_append hfresh hnd, ?_⟩
  rw [keysOf_append, hk, hp, List.flatMap_append, List.append_assoc]

theorem flattenSingleCore_obj (kvs : JDoc) (f : JDoc) (name : String) :
    flattenSingleCore (J.obj kvs) f name
      = insertPairs f (kvs.map (fun p => (name ++ "_" ++ p.1, p.2))) := by
  simp [flattenSingleCore, insertPairs, List.foldl_map]

theorem statKeys_fold_null (pre : String) (f : JDoc) :
    statKeys.foldl (fun f2 k => dictInsert f2 (pre ++ k) J.null) f
      = insertPairs f (nullPairs (blockCols pre)) := by
  simp [insertPairs, nullPairs, blockCols, List.map_map, List.foldl_map]

theorem flattenSingleCore_nonobj (v : J) (f : JDoc) (name : String)
    (hv : ∀ kvs, v ≠ J.obj kvs) :
    flattenSingleCore v f name
      = insertPairs f (nullPairs (blockCols (name ++ "_"))) := by
  cases v with
  | obj kvs => exact absurd rfl (hv kvs)
  | null => exact statKeys_fold_null (name ++ "_") f
  | num q => exact statKeys_fold_null (name ++ "_") f
  | str s => exact statKeys_fold_null (name ++ "_") f
  | arr xs => exact statKeys_fold_null (name ++ "_") f

theorem bandFallback_eq (name : String) (n : Nat) (f : JDoc) :
    bandFallback name n f
      = insertPairs f (nullPairs ((bandPres name n).flatMap blockCols)) := by
  suffices h : ∀ (is : List Nat) (f : JDoc),
      is.foldl (fun f i => statKeys.foldl
        (fun f2 k => dictInsert f2 (name ++ "_" ++ toString i ++ "_" ++ k) J.null) f) f
      = insertPairs f
          (nullPairs ((is.map (fun i => name ++ "_" ++ toString i ++ "_")).flatMap blockCols)) by
    exact h (List.range n) f
  intro is
  induction is with
  | nil => intro f; simp [insertPairs, nullPairs]
  | cons i is ih =>
    intro f
    rw [List.foldl_cons, statKeys_fold_null (name ++ "_" ++ toString i ++ "_") f, ih,
      List.map_cons, List.flatMap_cons]
    rw [show nullPairs (blockCols (name ++ "_" ++ toString i ++ "_")
          ++ (is.map (fun i => name ++ "_" ++ toString i ++ "_")).flatMap blockCols)
        = nullPairs (blockCols (name ++ "_" ++ toString i ++ "_"))
          ++ nullPairs ((is.map (fun i => name ++ "_" ++ toString i ++ "_")).flatMap blockCols)
      from List.map_append _ _ _]
    rw [insertPairs_split]

theorem flattenBandCore_arr_nil (f : JDoc) (name : String) (n : Nat) :
    flattenBandCore (J.arr []) f name n = Except.ok (bandFallback name n f) := rfl

theorem flattenBandCore_nonarr (v : J) (f : JDoc) (name : String) (n : Nat)
    (hv : ∀ xs, v ≠ J.arr xs) :
    flattenBandCore v f name n = Except.ok (bandFallback name n f) := by
  cases v with
  | arr xs => exact absurd rfl (hv xs)
  | null => rfl
  | num q => rfl
  | str s => rfl
  | obj kvs => rfl

theorem keysOf_prefixed (kvs : JDoc) (pre : String) (h : keysOf kvs = statKeys) :
    keysOf (kvs.map (fun p => (pre ++ p.1, p.2))) = blockCols pre := by
  rw [blockCols, ← h, keysOf, keysOf, List.map_map, List.map_map]
  rfl

theorem bandItems_fold (name : String) :
    ∀ (items : List J) (j : Nat) (f : JDoc),
      (∀ o ∈ items, ∃ kvs, o = J.obj kvs ∧ keysOf kvs = statKeys) →
      ∃ ps : JDoc,
        (List.enumFrom j items).foldlM (bandStep name) f = Except.ok (insertPairs f ps) ∧
        keysOf ps = ((List.range' j items.length).map
          (fun i => name ++ "_" ++ toString i ++ "_")).flatMap blockCols := by
  intro items
  induction items with
  | nil =>
    intro j f _
    exact ⟨[], by simp [List.foldlM, insertPairs, exc_pure_eq], by simp [keysOf]⟩
  | cons o rest ih =>
    intro j f hobj
    obtain ⟨kvs, rfl, hkeys⟩ := hobj o (List.mem_cons_self _ _)
    obtain ⟨ps', hfold, hkeys'⟩ :=
      ih (j + 1) (insertPairs f (kvs.map (fun q => (name ++ "_" ++ toString j ++ "_" ++ q.1, q.2))))
        (fun o ho => hobj o (List.mem_cons_of_mem _ ho))
    refine ⟨kvs.map (fun q => (name ++ "_" ++ toString j ++ "_" ++ q.1, q.2)) ++ ps', ?_, ?_⟩
    · rw [List.enumFrom_cons, List.foldlM_cons]
      have hstep : bandStep name f (j, J.obj kvs)
          = Except.ok (insertPairs f
              (kvs.map (fun q => (name ++ "_" ++ toString j ++ "_" ++ q.1, q.2)))) := by
        simp [bandStep, insertPairs, List.foldl_map]
      rw [hstep, exc_bind_ok, hfold, insertPairs_split]
    · rw [keysOf_append, hkeys',
        keysOf_prefixed kvs (name ++ "_" ++ toString j ++ "_") hkeys,
        List.length_cons, List.range'_succ, List.map_cons, List.flatMap_cons]

theorem flattenBandCore_arr_ok {items : List J} (f : JDoc) (name : String) (nB : Nat)
    (hne : items ≠ [])
    (hobj : ∀ o ∈ items, ∃ kvs, o = J.obj kvs ∧ keysOf kvs = statKeys) :
    ∃ ps, flattenBandCore (J.arr items) f name nB = Except.ok (insertPairs f ps) ∧
      keysOf ps = (bandPres name items.length).flatMap blockCols := by
  obtain ⟨ps, hf, hk⟩ := bandItems_fold name items 0 f hobj
  refine ⟨ps, ?_, ?_⟩
  · have hred : flattenBandCore (J.arr items) f name nB
        = if items.length > 0 then (List.enumFrom 0 items).foldlM (bandStep name) f
          else Except.ok (bandFallback name nB f) := rfl
    rw [hred, if_pos (List.length_pos.2 hne)]
    exact hf
  · rw [hk, bandPres, List.range_eq_range']

theorem scalar_head (doc : JDoc) :
    dictInsert (dictInsert (dictInsert (dictInsert [] "tempo" (pyDictGet doc "tempo" J.null))
      "danceability" (pyDictGet doc "danceability" J.null)) "key" (pyDictGet doc "key" J.null))
      "duration" (pyDictGet doc "duration" J.null) = scalarRow doc := rfl

theorem keysOf_scalarRow (doc : JDoc) : keysOf (scalarRow doc) = scalarCols := rfl

theorem stage_sep {l : List String} (h : l.Sublist allPrefixes) :
    (scalarCols ++ l).Pairwise (fun s t => sep s t = true) :=
  List.Pairwise.sublist (List.Sublist.append_left h scalarCols) schema_prefixes_pairwise_sep

theorem flattenSingleCore_obj_block (kvs : JDoc) (f : JDoc) (name : String) :
    flattenSingleCore (J.obj kvs) f name = insertPairs f (singleBlock name kvs) :=
  flattenSingleCore_obj kvs f name

/-- Core helper: flattening any well-formed bundle document succeeds and
emits exactly the full fixed schema, in order. -/
theorem flatten_wellformed (doc : JDoc) (h : WellFormedDoc doc) :
    ∃ row, flatten_audio_features doc = Except.ok row ∧ keysOf row = fullSchema := by
  obtain ⟨⟨kc, hgc, hkc⟩, ⟨ksc, hgs, hksc⟩, ⟨kz, hgz, hkz⟩, ⟨kr, hgr, hkr⟩,
    ⟨im, hgm, hlm, hom⟩, ⟨ic, hgc2, hlc2, hoc2⟩, ⟨it, hgt, hlt, hot⟩⟩ := h
  have h0 : keysOf (scalarRow doc) = scalarCols ++ ([] : List String).flatMap blockCols := by
    rw [keysOf_scalarRow]; simp
  have hp1 : keysOf (singleBlock "chroma_stft_stats" kc)
      = (["chroma_stft_stats" ++ "_"] : List String).flatMap blockCols := by
    simp only [List.flatMap_cons, List.flatMap_nil, List.append_nil]
    exact keysOf_prefixed kc ("chroma_stft_stats" ++ "_") hkc
  have st1 := stage_insert h0 hp1 (stage_sep (by decide))
  have hp2 : keysOf (singleBlock "spectral_centroid_stats" ksc)
      = (["spectral_centroid_stats" ++ "_"] : List String).flatMap blockCols := by
    simp only [List.flatMap_cons, List.flatMap_nil, List.append_nil]
    exact keysOf_prefixed ksc ("spectral_centroid_stats" ++ "_") hksc
  have st2 := stage_insert st1.2 hp2 (stage_sep (by decide))
  have hp3 : keysOf (singleBlock "zero_crossing_rate_stats" kz)
      = (["zero_crossing_rate_stats" ++ "_"] : List String).flatMap blockCols := by
    simp only [List.flatMap_cons, List.flatMap_nil, List.append_nil]
    exact keysOf_prefixed kz ("zero_crossing_rate_stats" ++ "_") hkz
  have st3 := stage_insert st2.2 hp3 (stage_sep (by decide))
  have hp4 : keysOf (singleBlock "rms_stats" kr)
      = (["rms_stats" ++ "_"] : List String).flatMap blockCols := by
    simp only [List.flatMap_cons, List.flatMap_nil, List.append_nil]
    exact keysOf_prefixed kr ("rms_stats" ++ "_") hkr
  have st4 := stage_insert st3.2 hp4 (stage_sep (by decide))
  have hnem : im ≠ [] := by rw [← List.length_pos, hlm]; decide
  obtain ⟨ps5, hok5, hk5⟩ := flattenBandCore_arr_ok
    (scalarRow doc ++ singleBlock "chroma_stft_stats" kc ++ singleBlock "spectral_centroid_stats" ksc
      ++ singleBlock "zero_crossing_rate_stats" kz ++ singleBlock "rms_stats" kr)
    "mfcc_stats" 20 hnem hom
  have hp5 : keysOf ps5 = (bandPres "mfcc_stats" 20).flatMap blockCols := by rw [hk5, hlm]
  have st5 := stage_insert st4.2 hp5 (stage_sep (by decide))
  have hnec : ic ≠ [] := by rw [← List.length_pos, hlc2]; decide
  obtain ⟨ps6, hok6, hk6⟩ := flattenBandCore_arr_ok
    (scalarRow doc ++ singleBlock "chroma_stft_stats" kc ++ singleBlock "spectral_centroid_stats" ksc
      ++ singleBlock "zero_crossing_rate_stats" kz ++ singleBlock "rms_stats" kr ++ ps5)
    "spectral_contrast_stats" 7 hnec hoc2
  have hp6 : keysOf ps6 = (bandPres "spectral_contrast_stats" 7).flatMap blockCols := by
    rw [hk6, hlc2]
  have st6 := stage_insert st5.2 hp6 (stage_sep (by decide))
  have hnet : it ≠ [] := by rw [← List.length_pos, hlt]; decide
  obtain ⟨ps7, hok7, hk7⟩ := flattenBandCore_arr_ok
    (scalarRow doc ++ singleBlock "chroma_stft_stats" kc ++ singleBlock "spectral_centroid_stats" ksc
      ++ singleBlock "zero_crossing_rate_stats" kz ++ singleBlock "rms_stats" kr ++ ps5 ++ ps6)
    "tonnetz_stats" 6 hnet hot
  have hp7 : keysOf ps7 = (bandPres "tonnetz_stats" 6).flatMap blockCols := by rw [hk7, hlt]
  have st7 := stage_insert st6.2 hp7 (stage_sep (by decide))
  refine ⟨scalarRow doc ++ singleBlock "chroma_stft_stats" kc
      ++ singleBlock "spectral_centroid_stats" ksc ++ singleBlock "zero_crossing_rate_stats" kz
      ++ singleBlock "rms_stats" kr ++ ps5 ++ ps6 ++ ps7, ?_, ?_⟩
  · simp only [flatten_audio_features, flattenSingle, flattenBand, singleStatsNames,
      List.foldl_cons, List.foldl_nil, scalar_head]
    rw [hgc, flattenSingleCore_obj_block kc (scalarRow doc) "chroma_stft_stats", st1.1,
      hgs, flattenSingleCore_obj_block ksc _ "spectral_centroid_stats", st2.1,
      hgz, flattenSingleCore_obj_block kz _ "zero_crossing_rate_stats", st3.1,
      hgr, flattenSingleCore_obj_block kr _ "rms_stats", st4.1]
    rw [hgm, hok5, exc_bind_ok, st5.1, hgc2, hok6, exc_bind_ok, st6.1,
      hgt, hok7, exc_bind_ok, st7.1, exc_pure_eq]
  · rw [st7.2]
    have : ((((((([] : List String) ++ ["chroma_stft_stats" ++ "_"])
        ++ ["spectral_centroid_stats" ++ "_"]) ++ ["zero_crossing_rate_stats" ++ "_"])
        ++ ["rms_stats" ++ "_"]) ++ bandPres "mfcc_stats" 20)
        ++ bandPres "spectral_contrast_stats" 7) ++ bandPres "tonnetz_stats" 6
        = allPrefixes := by decide
    rw [this, fullSchema]

theorem pyDictGet_nil (k : String) (d : J) : pyDictGet [] k d = d := rfl

theorem flattenSingleCore_objnil (f : JDoc) (name : String) :
    flattenSingleCore (J.obj []) f name = f := rfl

/-- Core helper: flattening the empty document (no artifact found)
succeeds, but emits only the 235 columns of `emptySchema`: the four
single-stats blocks are silently skipped because the `{}` default is a
dict with no items. -/
theorem flatten_nil : flatten_audio_features [] = Except.ok emptyFlatRow := by
  have h0 : keysOf (scalarRow []) = scalarCols ++ ([] : List String).flatMap blockCols := by
    rw [keysOf_scalarRow]; simp
  have hp5 : keysOf (nullPairs ((bandPres "mfcc_stats" 20).flatMap blockCols))
      = (bandPres "mfcc_stats" 20).flatMap blockCols := keysOf_nullPairs _
  have st5 := stage_insert h0 hp5 (stage_sep (by decide))
  have hp6 : keysOf (nullPairs ((bandPres "spectral_contrast_stats" 7).flatMap blockCols))
      = (bandPres "spectral_contrast_stats" 7).flatMap blockCols := keysOf_nullPairs _
  have st6 := stage_insert st5.2 hp6 (stage_sep (by decide))
  have hp7 : keysOf (nullPairs ((bandPres "tonnetz_stats" 6).flatMap blockCols))
      = (bandPres "tonnetz_stats" 6).flatMap blockCols := keysOf_nullPairs _
  have st7 := stage_insert st6.2 hp7 (stage_sep (by decide))
  simp only [flatten_audio_features, flattenSingle, flattenBand, singleStatsNames,
    List.foldl_cons, List.foldl_nil, scalar_head]
  rw [pyDictGet_nil "chroma_stft_stats" (J.obj []), flattenSingleCore_objnil,
    pyDictGet_nil "spectral_centroid_stats" (J.obj []), flattenSingleCore_objnil,
    pyDictGet_nil "zero_crossing_rate_stats" (J.obj []), flattenSingleCore_objnil,
    pyDictGet_nil "rms_stats" (J.obj []), flattenSingleCore_objnil,
    pyDictGet_nil "mfcc_stats" (J.arr []), flattenBandCore_arr_nil, bandFallback_eq,
    st5.1, exc_bind_ok,
    pyDictGet_nil "spectral_contrast_stats" (J.arr []), flattenBandCore_arr_nil, bandFallback_eq,
    st6.1, exc_bind_ok,
    pyDictGet_nil "tonnetz_stats" (J.arr []), flattenBandCore_arr_nil, bandFallback_eq,
    st7.1, exc_bind_ok, exc_pure_eq]
  have hsr : scalarRow [] = nullPairs scalarCols := rfl
  rw [hsr, emptyFlatRow, emptySchema, emptyPrefixes]
  simp [nullPairs, List.map_append, List.flatMap_append, List.append_assoc]

theorem sampleBundle_wellformed : WellFormedDoc sampleBundle := by
  refine ⟨⟨statKeys.map (fun k => (k, J.num 1)), rfl, rfl⟩,
    ⟨statKeys.map (fun k => (k, J.num 2)), rfl, rfl⟩,
    ⟨statKeys.map (fun k => (k, J.num 3)), rfl, rfl⟩,
    ⟨statKeys.map (fun k => (k, J.num 4)), rfl, rfl⟩,
    ⟨(List.range 20).map (fun _ => statsObjOf 5), rfl, by simp, ?_⟩,
    ⟨(List.range 7).map (fun _ => statsObjOf 6), rfl, by simp, ?_⟩,
    ⟨(List.range 6).map (fun _ => statsObjOf 7), rfl, by simp, ?_⟩⟩
  all_goals
    intro o ho
    simp only [List.mem_map] at ho
    obtain ⟨i, _, rfl⟩ := ho
    exact ⟨_, rfl, rfl⟩

/-- Flattening the concrete sample bundle succeeds with the full schema. -/
theorem flatten_sample : ∃ row, flatten_audio_features sampleBundle = Except.ok row ∧
    keysOf row = fullSchema :=
  flatten_wellformed sampleBundle sampleBundle_wellformed

theorem nodup_schema_of {pres : List String} (h : pres.Sublist allPrefixes) :
    (scalarCols ++ pres.flatMap blockCols).Nodup := by
  have hPW := stage_sep h
  rw [List.pairwise_append] at hPW
  obtain ⟨hsc, hpre, hcross⟩ := hPW
  refine List.Nodup.append (hsc.imp fun h => sep_ne h) (nodup_flatMap_blockCols hpre) ?_
  intro x hx hx'
  obtain ⟨pre, hpre', k, hk, he⟩ := mem_flatMap_blockCols.1 hx'
  exact sep_ne_right (hcross x hx pre hpre') k he

theorem fullSchema_nodup : fullSchema.Nodup :=
  nodup_schema_of (List.Sublist.refl _)

theorem emptySchema_nodup : emptySchema.Nodup :=
  nodup_schema_of (by decide)

theorem fullSchema_length : fullSchema.length = 263 := by decide

theorem emptySchema_length : emptySchema.length = 235 := by decide

theorem mfccShortSchema_length : mfccShortSchema.length = 130 := by decide

/-- Flattening the wrong-length document raises nothing: it returns a row
with columns for exactly the present mfcc indices. -/
theorem flatten_mfccShort : ∃ row, flatten_audio_features mfccShortDoc = Except.ok row ∧
    keysOf row = mfccShortSchema := by
  have h0 : keysOf (scalarRow mfccShortDoc)
      = scalarCols ++ ([] : List String).flatMap blockCols := by
    rw [keysOf_scalarRow]; simp
  have hp1 : keysOf (singleBlock "chroma_stft_stats" (statKeys.map (fun k => (k, J.num 1))))
      = (["chroma_stft_stats" ++ "_"] : List String).flatMap blockCols := by
    simp only [List.flatMap_cons, List.flatMap_nil, List.append_nil]
    exact keysOf_prefixed _ ("chroma_stft_stats" ++ "_") rfl
  have st1 := stage_insert h0 hp1 (stage_sep (by decide))
  have hp2 : keysOf (singleBlock "spectral_centroid_stats" (statKeys.map (fun k => (k, J.num 2))))
      = (["spectral_centroid_stats" ++ "_"] : List String).flatMap blockCols := by
    simp only [List.flatMap_cons, List.flatMap_nil, List.append_nil]
    exact keysOf_prefixed _ ("spectral_centroid_stats" ++ "_") rfl
  have st2 := stage_insert st1.2 hp2 (stage_sep (by decide))
  have hp3 : keysOf (singleBlock "zero_crossing_rate_stats" (statKeys.map (fun k => (k, J.num 3))))
      = (["zero_crossing_rate_stats" ++ "_"] : List String).flatMap blockCols := by
    simp only [List.flatMap_cons, List.flatMap_nil, List.append_nil]
    exact keysOf_prefixed _ ("zero_crossing_rate_stats" ++ "_") rfl
  have st3 := stage_insert st2.2 hp3 (stage_sep (by decide))
  have hp4 : keysOf (singleBlock "rms_stats" (statKeys.map (fun k => (k, J.num 4))))
      = (["rms_stats" ++ "_"] : List String).flatMap blockCols := by
    simp only [List.flatMap_cons, List.flatMap_nil, List.append_nil]
    exact keysOf_prefixed _ ("rms_stats" ++ "_") rfl
  have st4 := stage_insert st3.2 hp4 (stage_sep (by decide))
  obtain ⟨ps5, hok5, hk5⟩ := @flattenBandCore_arr_ok [statsObjOf 5]
    (scalarRow mfccShortDoc
      ++ singleBlock "chroma_stft_stats" (statKeys.map (fun k => (k, J.num 1)))
      ++ singleBlock "spectral_centroid_stats" (statKeys.map (fun k => (k, J.num 2)))
      ++ singleBlock "zero_crossing_rate_stats" (statKeys.map (fun k => (k, J.num 3)))
      ++ singleBlock "rms_stats" (statKeys.map (fun k => (k, J.num 4))))
    "mfcc_stats" 20 (List.cons_ne_nil _ _)
    (by intro o ho
        rw [List.mem_singleton] at ho
        subst ho
        exact ⟨statKeys.map (fun k => (k, J.num 5)), rfl, rfl⟩)
  have hp5 : keysOf ps5 = (bandPres "mfcc_stats" 1).flatMap blockCols := by
    rw [hk5]; rfl
  have st5 := stage_insert st4.2 hp5 (stage_sep (by decide))
  have hl6 : ((List.range 7).map (fun _ => statsObjOf 6)).length = 7 := by
    rw [List.length_map, List.length_range]
  have hl7 : ((List.range 6).map (fun _ => statsObjOf 7)).length = 6 := by
    rw [List.length_map, List.length_range]
  obtain ⟨ps6, hok6, hk6⟩ := flattenBandCore_arr_ok
    (scalarRow mfccShortDoc
      ++ singleBlock "chroma_stft_stats" (statKeys.map (fun k => (k, J.num 1)))
      ++ singleBlock "spectral_centroid_stats" (statKeys.map (fun k => (k, J.num 2)))
      ++ singleBlock "zero_crossing_rate_stats" (statKeys.map (fun k => (k, J.num 3)))
      ++ singleBlock "rms_stats" (statKeys.map (fun k => (k, J.num 4))) ++ ps5)
    "spectral_contrast_stats" 7 (List.length_pos.1 (by rw [hl6]; decide))
    (by intro o ho
        simp only [List.mem_map] at ho
        obtain ⟨i, _, rfl⟩ := ho
        exact ⟨_, rfl, rfl⟩)
  have hp6 : keysOf ps6 = (bandPres "spectral_contrast_stats" 7).flatMap blockCols := by
    rw [hk6, hl6]
  have st6 := stage_insert st5.2 hp6 (stage_sep (by decide))
  obtain ⟨ps7, hok7, hk7⟩ := flattenBandCore_arr_ok
    (scalarRow mfccShortDoc
      ++ singleBlock "chroma_stft_stats" (statKeys.map (fun k => (k, J.num 1)))
      ++ singleBlock "spectral_centroid_stats" (statKeys.map (fun k => (k, J.num 2)))
      ++ singleBlock "zero_crossing_rate_stats" (statKeys.map (fun k => (k, J.num 3)))
      ++ singleBlock "rms_stats" (statKeys.map (fun k => (k, J.num 4))) ++ ps5 ++ ps6)
    "tonnetz_stats" 6 (List.length_pos.1 (by rw [hl7]; decide))
    (by intro o ho
        simp only [List.mem_map] at ho
        obtain ⟨i, _, rfl⟩ := ho
        exact ⟨_, rfl, rfl⟩)
  have hp7 : keysOf ps7 = (bandPres "tonnetz_stats" 6).flatMap blockCols := by
    rw [hk7, hl7]
  have st7 := stage_insert st6.2 hp7 (stage_sep (by decide))
  refine ⟨scalarRow mfccShortDoc
      ++ singleBlock "chroma_stft_stats" (statKeys.map (fun k => (k, J.num 1)))
      ++ singleBlock "spectral_centroid_stats" (statKeys.map (fun k => (k, J.num 2)))
      ++ singleBlock "zero_crossing_rate_stats" (statKeys.map (fun k => (k, J.num 3)))
      ++ singleBlock "rms_stats" (statKeys.map (fun k => (k, J.num 4)))
      ++ ps5 ++ ps6 ++ ps7, ?_, ?_⟩
  · simp only [flatten_audio_features, flattenSingle, flattenBand, singleStatsNames,
      List.foldl_cons, List.foldl_nil, scalar_head]
    rw [show pyDictGet mfccShortDoc "chroma_stft_stats" (J.obj [])
        = J.obj (statKeys.map (fun k => (k, J.num 1))) from rfl,
      flattenSingleCore_obj_block _ _ "chroma_stft_stats", st1.1,
      show pyDictGet mfccShortDoc "spectral_centroid_stats" (J.obj [])
        = J.obj (statKeys.map (fun k => (k, J.num 2))) from rfl,
      flattenSingleCore_obj_block _ _ "spectral_centroid_stats", st2.1,
      show pyDictGet mfccShortDoc "zero_crossing_rate_stats" (J.obj [])
        = J.obj (statKeys.map (fun k => (k, J.num 3))) from rfl,
      flattenSingleCore_obj_block _ _ "zero_crossing_rate_stats", st3.1,
      show pyDictGet mfccShortDoc "rms_stats" (J.obj [])
        = J.obj (statKeys.map (fun k => (k, J.num 4))) from rfl,
      flattenSingleCore_obj_block _ _ "rms_stats", st4.1]
    rw [show pyDictGet mfccShortDoc "mfcc_stats" (J.arr []) = J.arr [statsObjOf 5] from rfl,
      hok5, exc_bind_ok, st5.1,
      show pyDictGet mfccShortDoc "spectral_contrast_stats" (J.arr [])
        = J.arr ((List.range 7).map (fun _ => statsObjOf 6)) from rfl,
      hok6, exc_bind_ok, st6.1,
      show pyDictGet mfccShortDoc "tonnetz_stats" (J.arr [])
        = J.arr ((List.range 6).map (fun _ => statsObjOf 7)) from rfl,
      hok7, exc_bind_ok, st7.1, exc_pure_eq]
  · rw [st7.2]
    have heq : ((((((([] : List String) ++ ["chroma_stft_stats" ++ "_"])
        ++ ["spectral_centroid_stats" ++ "_"]) ++ ["zero_crossing_rate_stats" ++ "_"])
        ++ ["rms_stats" ++ "_"]) ++ bandPres "mfcc_stats" 1)
        ++ bandPres "spectral_contrast_stats" 7) ++ bandPres "tonnetz_stats" 6
        = singlesPre ++ bandPres "mfcc_stats" 1 ++ bandPres "spectral_contrast_stats" 7
          ++ bandPres "tonnetz_stats" 6 := by decide
    rw [heq, mfccShortSchema]

theorem flatten_badBand :
    flatten_audio_features badBandDoc
      = Except.error "AttributeError: object has no attribute items" := rfl

theorem find?_key_cons_pos (l : JDoc) (q : String × J) (k : String)
    (h : (q.1 == k) = true) :
    List.find? (fun p => p.1 == k) (q :: l) = some q := by
  rw [List.find?_cons, h]

theorem find?_key_cons_neg (l : JDoc) (q : String × J) (k : String)
    (h : (q.1 == k) = false) :
    List.find? (fun p => p.1 == k) (q :: l) = List.find? (fun p => p.1 == k) l := by
  rw [List.find?_cons, h]

theorem find?_map_overwrite {k : String} {v : J} :
    ∀ (f : JDoc), f.any (fun p => p.1 == k) = true →
      (f.map (fun p => if p.1 == k then (k, v) else p)).find? (fun p => p.1 == k)
        = some (k, v) := by
  intro f
  induction f with
  | nil => intro h; simp at h
  | cons p ps ih =>
    intro h
    simp only [List.map_cons]
    by_cases hp : (p.1 == k) = true
    · rw [if_pos hp]
      exact find?_key_cons_pos _ _ _ (by simp)
    · rw [if_neg hp]
      rw [find?_key_cons_neg _ _ _ (Bool.eq_false_iff.2 hp)]
      apply ih
      simp only [List.any_cons, Bool.or_eq_true] at h
      rcases h with h | h
      · exact absurd h hp
      · exact h

theorem find?_dictInsert_self (f : JDoc) (k : String) (v : J) :
    (dictInsert f k v).find? (fun p => p.1 == k) = some (k, v) := by
  unfold dictInsert
  by_cases h : f.any (fun p => p.1 == k) = true
  · rw [if_pos h]; exact find?_map_overwrite f h
  · rw [if_neg h, List.find?_append]
    have hf : f.find? (fun p => p.1 == k) = none := by
      rw [List.find?_eq_none]
      intro p hp
      exact (List.any_eq_false.1 (Bool.eq_false_iff.2 h)) p hp
    rw [hf]
    simp

theorem find?_dictInsert_ne (f : JDoc) {k k' : String} (v : J) (h : k' ≠ k) :
    (dictInsert f k' v).find? (fun p => p.1 == k) = f.find? (fun p => p.1 == k) := by
  unfold dictInsert
  by_cases ha : f.any (fun p => p.1 == k') = true
  · rw [if_pos ha]
    clear ha
    induction f with
    | nil => rfl
    | cons p ps ih =>
      simp only [List.map_cons]
      by_cases hp : (p.1 == k') = true
      · rw [if_pos hp]
        have hp1 : p.1 = k' := by simpa using hp
        have hkk : ((((k', v)) : String × J).1 == k) = false := by simpa using h
        have hpk : (p.1 == k) = false := by simp [hp1, h]
        rw [find?_key_cons_neg _ _ _ hkk, find?_key_cons_neg _ _ _ hpk]
        exact ih
      · rw [if_neg hp]
        by_cases hpk : (p.1 == k) = true
        · rw [find?_key_cons_pos _ _ _ hpk, find?_key_cons_pos _ _ _ hpk]
        · rw [find?_key_cons_neg _ _ _ (Bool.eq_false_iff.2 hpk),
            find?_key_cons_neg _ _ _ (Bool.eq_false_iff.2 hpk)]
          exact ih
  · rw [if_neg ha, List.find?_append]
    have h1 : List.find? (fun p => p.1 == k) [(k', v)] = none := by
      have hkk : ((((k', v)) : String × J).1 == k) = false := by simpa using h
      rw [find?_key_cons_neg _ _ _ hkk]
      rfl
    rw [h1, Option.or_none]

theorem find?_insertPairs_ne {t : String} :
    ∀ (ps : JDoc) (f : JDoc), (∀ q ∈ ps, q.1 ≠ t) →
      (insertPairs f ps).find? (fun p => p.1 == t) = f.find? (fun p => p.1 == t) := by
  intro ps
  induction ps with
  | nil => intro f _; rfl
  | cons q qs ih =>
    intro f h
    show (insertPairs (dictInsert f q.1 q.2) qs).find? _ = _
    rw [ih _ (fun q' hq' => h q' (List.mem_cons_of_mem _ hq')),
      find?_dictInsert_ne f q.2 (h q (List.mem_cons_self _ _))]

theorem fold_null_insertPairs (pre : String) (ks : List String) (f : JDoc) :
    ks.foldl (fun f2 k => dictInsert f2 (pre ++ k) J.null) f
      = insertPairs f (ks.map (fun k => (pre ++ k, J.null))) := by
  simp [insertPairs, List.foldl_map]

theorem statKeys_nodup : statKeys.Nodup := statKeys_pairwise_sep.imp (fun h => sep_ne h)

theorem find?_statKeys_fold (pre : String) (f : JDoc) (k : String) (hk : k ∈ statKeys) :
    (statKeys.foldl (fun f2 k' => dictInsert f2 (pre ++ k') J.null) f).find?
      (fun p => p.1 == pre ++ k) = some (pre ++ k, J.null) := by
  have main : ∀ (ks : List String) (f : JDoc), ks.Nodup → k ∈ ks →
      (ks.foldl (fun f2 k' => dictInsert f2 (pre ++ k') J.null) f).find?
        (fun p => p.1 == pre ++ k) = some (pre ++ k, J.null) := by
    intro ks
    induction ks with
    | nil => intro f _ hm; cases hm
    | cons a ks ih =>
      intro f hnd hm
      rw [List.foldl_cons]
      rw [List.nodup_cons] at hnd
      rcases List.mem_cons.1 hm with rfl | hm'
      · rw [fold_null_insertPairs]
        have hne : ∀ q ∈ ks.map (fun k' => (pre ++ k', J.null)), q.1 ≠ pre ++ k := by
          intro q hq
          simp only [List.mem_map] at hq
          obtain ⟨k', hk', rfl⟩ := hq
          intro he
          exact hnd.1 (string_append_left_cancel he ▸ hk')
        rw [find?_insertPairs_ne _ _ hne]
        exact find?_dictInsert_self f (pre ++ k) J.null
      · exact ih _ hnd.2 hm'
  exact main statKeys f statKeys_nodup hk

theorem find?_flattenSingleCore_ne (v : J) (f : JDoc) (name' : String) {t : String}
    (h : ∀ a, name' ++ "_" ++ a ≠ t) :
    (flattenSingleCore v f name').find? (fun p => p.1 == t)
      = f.find? (fun p => p.1 == t) := by
  have hnull : ∀ (g : JDoc),
      (statKeys.foldl (fun f2 k => dictInsert f2 (name' ++ "_" ++ k) J.null) g).find?
        (fun p => p.1 == t) = g.find? (fun p => p.1 == t) := by
    intro g
    rw [fold_null_insertPairs (name' ++ "_") statKeys g, find?_insertPairs_ne]
    intro q hq
    simp only [List.mem_map] at hq
    obtain ⟨k', hk', rfl⟩ := hq
    exact h k'
  cases v with
  | obj kvs =>
    rw [flattenSingleCore_obj_block, find?_insertPairs_ne]
    intro q hq
    simp only [singleBlock, List.mem_map] at hq
    obtain ⟨p, hp, rfl⟩ := hq
    exact h p.1
  | null => exact hnull f
  | num q => exact hnull f
  | str s => exact hnull f
  | arr xs => exact hnull f

theorem find?_bandFallback_ne (name' : String) (n : Nat) (f : JDoc) {t : String}
    (h : ∀ (i : Nat) (a : String), name' ++ "_" ++ toString i ++ "_" ++ a ≠ t) :
    (bandFallback name' n f).find? (fun p => p.1 == t) = f.find? (fun p => p.1 == t) := by
  rw [bandFallback_eq, find?_insertPairs_ne]
  intro q hq
  simp only [nullPairs, List.mem_map] at hq
  obtain ⟨x, hx, rfl⟩ := hq
  obtain ⟨pre, hpre, k, hk, rfl⟩ := mem_flatMap_blockCols.1 hx
  simp only [bandPres, List.mem_map] at hpre
  obtain ⟨i, _, rfl⟩ := hpre
  exact h i k

theorem find?_flattenBandCore (v : J) (f : JDoc) (name' : String) (n : Nat)
    (hobjs : ∀ items, v = J.arr items → ∀ o ∈ items, ∃ kvs, o = J.obj kvs) :
    ∃ f', flattenBandCore v f name' n = Except.ok f' ∧
      ∀ t : String, (∀ (i : Nat) (a : String), name' ++ "_" ++ toString i ++ "_" ++ a ≠ t) →
        f'.find? (fun p => p.1 == t) = f.find? (fun p => p.1 == t) := by
  cases v with
  | arr items =>
    by_cases hlen : items.length > 0
    · have aux : ∀ (its : List J) (j : Nat) (g : JDoc),
          (∀ o ∈ its, ∃ kvs, o = J.obj kvs) →
          ∃ g', (List.enumFrom j its).foldlM (bandStep name') g = Except.ok g' ∧
            ∀ t : String,
              (∀ (i : Nat) (a : String), name' ++ "_" ++ toString i ++ "_" ++ a ≠ t) →
              g'.find? (fun p => p.1 == t) = g.find? (fun p => p.1 == t) := by
        intro its
        induction its with
        | nil =>
          intro j g _
          exact ⟨g, by simp [List.foldlM, exc_pure_eq], fun t _ => rfl⟩
        | cons o rest ih =>
          intro j g hobj
          obtain ⟨kvs, rfl⟩ := hobj o (List.mem_cons_self _ _)
          have hstep : bandStep name' g (j, J.obj kvs)
              = Except.ok (insertPairs g
                  (kvs.map (fun q => (name' ++ "_" ++ toString j ++ "_" ++ q.1, q.2)))) := by
            simp [bandStep, insertPairs, List.foldl_map]
          obtain ⟨g', hg', hfind⟩ := ih (j + 1)
            (insertPairs g (kvs.map (fun q => (name' ++ "_" ++ toString j ++ "_" ++ q.1, q.2))))
            (fun o ho => hobj o (List.mem_cons_of_mem _ ho))
          refine ⟨g', ?_, ?_⟩
          · rw [List.enumFrom_cons, List.foldlM_cons, hstep, exc_bind_ok, hg']
          · intro t ht
            rw [hfind t ht, find?_insertPairs_ne]
            intro q hq
            simp only [List.mem_map] at hq
            obtain ⟨p, hp, rfl⟩ := hq
            exact ht j p.1
      obtain ⟨f', h1, h2⟩ := aux items 0 f (hobjs items rfl)
      refine ⟨f', ?_, h2⟩
      have hred : flattenBandCore (J.arr items) f name' n
          = if items.length > 0 then (List.enumFrom 0 items).foldlM (bandStep name') f
            else Except.ok (bandFallback name' n f) := rfl
      rw [hred, if_pos hlen]
      exact h1
    · have hnil : items = [] := by
        cases items with
        | nil => rfl
        | cons a l => simp at hlen
      subst hnil
      exact ⟨bandFallback name' n f, flattenBandCore_arr_nil f name' n,
        fun t ht => find?_bandFallback_ne name' n f ht⟩
  | null => exact ⟨_, rfl, fun t ht => find?_bandFallback_ne name' n f ht⟩
  | num q => exact ⟨_, rfl, fun t ht => find?_bandFallback_ne name' n f ht⟩
  | str s => exact ⟨_, rfl, fun t ht => find?_bandFallback_ne name' n f ht⟩
  | obj kvs => exact ⟨_, rfl, fun t ht => find?_bandFallback_ne name' n f ht⟩

theorem band_key_ne {bn s : String} (hsep : sep (bn ++ "_") s = true) :
    ∀ (i : Nat) (a b : String), bn ++ "_" ++ toString i ++ "_" ++ a ≠ s ++ b := by
  intro i a b
  rw [String.append_assoc (bn ++ "_" ++ toString i) "_" a,
    String.append_assoc (bn ++ "_") (toString i) ("_" ++ a)]
  exact sep_append_ne hsep _ b

theorem single_key_ne {n1 s : String} (hsep : sep (n1 ++ "_") s = true) :
    ∀ (a b : String), n1 ++ "_" ++ a ≠ s ++ b := fun a b => sep_append_ne hsep a b

theorem flatten_bands_keep (doc : JDoc) (f4 : JDoc) (hb : BandsOk doc) (name : String)
    (hsepm : sep ("mfcc_stats" ++ "_") (name ++ "_") = true)
    (hsepc : sep ("spectral_contrast_stats" ++ "_") (name ++ "_") = true)
    (hsept : sep ("tonnetz_stats" ++ "_") (name ++ "_") = true) :
    ∃ f7, (flattenBand doc f4 "mfcc_stats" 20 >>= fun flat =>
        flattenBand doc flat "spectral_contrast_stats" 7 >>= fun flat =>
        flattenBand doc flat "tonnetz_stats" 6 >>= fun flat => pure flat) = Except.ok f7 ∧
      ∀ k : String, f7.find? (fun p => p.1 == name ++ "_" ++ k)
        = f4.find? (fun p => p.1 == name ++ "_" ++ k) := by
  obtain ⟨f5, hok5, hf5⟩ := find?_flattenBandCore (pyDictGet doc "mfcc_stats" (J.arr []))
    f4 "mfcc_stats" 20 (fun items hi => hb "mfcc_stats" (by decide) items hi)
  obtain ⟨f6, hok6, hf6⟩ :=
    find?_flattenBandCore (pyDictGet doc "spectral_contrast_stats" (J.arr []))
      f5 "spectral_contrast_stats" 7
      (fun items hi => hb "spectral_contrast_stats" (by decide) items hi)
  obtain ⟨f7, hok7, hf7⟩ := find?_flattenBandCore (pyDictGet doc "tonnetz_stats" (J.arr []))
    f6 "tonnetz_stats" 6 (fun items hi => hb "tonnetz_stats" (by decide) items hi)
  refine ⟨f7, ?_, ?_⟩
  · simp only [flattenBand]
    rw [hok5, exc_bind_ok, hok6, exc_bind_ok, hok7, exc_bind_ok, exc_pure_eq]
  · intro k
    rw [hf7 _ (fun i a => band_key_ne hsept i a k),
      hf6 _ (fun i a => band_key_ne hsepc i a k),
      hf5 _ (fun i a => band_key_ne hsepm i a k)]

/-- Core helper: a single-stats field holding a non-dict value never makes
`flatten_audio_features` fail (provided the band arrays do not
independently crash the band loops) and its seven columns are all emitted
holding the `None` sentinel — the non-dict value never reaches the row. -/
theorem flatten_nondict_single (doc : JDoc) (name : String) (v : J)
    (hname : name ∈ singleStatsNames)
    (hv : pyDictGet doc name (J.obj []) = v)
    (hno : ∀ kvs, v ≠ J.obj kvs)
    (hb : BandsOk doc) :
    ∃ row, flatten_audio_features doc = Except.ok row ∧
      ∀ k ∈ statKeys, row.find? (fun p => p.1 == name ++ "_" ++ k)
        = some (name ++ "_" ++ k, J.null) := by
  have htarget : ∀ (g : JDoc) (nm : String) (k : String), k ∈ statKeys →
      (flattenSingleCore v g nm).find? (fun p => p.1 == nm ++ "_" ++ k)
        = some (nm ++ "_" ++ k, J.null) := by
    intro g nm k hk
    cases v with
    | obj kvs => exact absurd rfl (hno kvs)
    | null => exact find?_statKeys_fold (nm ++ "_") g k hk
    | num q => exact find?_statKeys_fold (nm ++ "_") g k hk
    | str s => exact find?_statKeys_fold (nm ++ "_") g k hk
    | arr xs => exact find?_statKeys_fold (nm ++ "_") g k hk
  simp only [singleStatsNames, List.mem_cons, List.not_mem_nil, or_false] at hname
  rcases hname with rfl | rfl | rfl | rfl
  · obtain ⟨f7, hok, hkeep⟩ := flatten_bands_keep doc
      (flattenSingleCore (pyDictGet doc "rms_stats" (J.obj []))
        (flattenSingleCore (pyDictGet doc "zero_crossing_rate_stats" (J.obj []))
          (flattenSingleCore (pyDictGet doc "spectral_centroid_stats" (J.obj []))
            (flattenSingleCore v (scalarRow doc) "chroma_stft_stats")
            "spectral_centroid_stats")
          "zero_crossing_rate_stats")
        "rms_stats")
      hb "chroma_stft_stats" (by decide) (by decide) (by decide)
    refine ⟨f7, ?_, ?_⟩
    · simp only [flatten_audio_features, flattenSingle, singleStatsNames,
        List.foldl_cons, List.foldl_nil, scalar_head, hv]
      exact hok
    · intro k hk
      rw [hkeep k,
        find?_flattenSingleCore_ne _ _ "rms_stats" (fun a => single_key_ne (by decide) a k),
        find?_flattenSingleCore_ne _ _ "zero_crossing_rate_stats"
          (fun a => single_key_ne (by decide) a k),
        find?_flattenSingleCore_ne _ _ "spectral_centroid_stats"
          (fun a => single_key_ne (by decide) a k)]
      exact htarget (scalarRow doc) "chroma_stft_stats" k hk
  · obtain ⟨f7, hok, hkeep⟩ := flatten_bands_keep doc
      (flattenSingleCore (pyDictGet doc "rms_stats" (J.obj []))
        (flattenSingleCore (pyDictGet doc "zero_crossing_rate_stats" (J.obj []))
          (flattenSingleCore v
            (flattenSingleCore (pyDictGet doc "chroma_stft_stats" (J.obj []))
              (scalarRow doc) "chroma_stft_stats")
            "spectral_centroid_stats")
          "zero_crossing_rate_stats")
        "rms_stats")
      hb "spectral_centroid_stats" (by decide) (by decide) (by decide)
    refine ⟨f7, ?_, ?_⟩
    · simp only [flatten_audio_features, flattenSingle, singleStatsNames,
        List.foldl_cons, List.foldl_nil, scalar_head, hv]
      exact hok
    · intro k hk
      rw [hkeep k,
        find?_flattenSingleCore_ne _ _ "rms_stats" (fun a => single_key_ne (by decide) a k),
        find?_flattenSingleCore_ne _ _ "zero_crossing_rate_stats"
          (fun a => single_key_ne (by decide) a k)]
      exact htarget _ "spectral_centroid_stats" k hk
  · obtain ⟨f7, hok, hkeep⟩ := flatten_bands_keep doc
      (flattenSingleCore (pyDictGet doc "rms_stats" (J.obj []))
        (flattenSingleCore v
          (flattenSingleCore (pyDictGet doc "spectral_centroid_stats" (J.obj []))
            (flattenSingleCore (pyDictGet doc "chroma_stft_stats" (J.obj []))
              (scalarRow doc) "chroma_stft_stats")
            "spectral_centroid_stats")
          "zero_crossing_rate_stats")
        "rms_stats")
      hb "zero_crossing_rate_stats" (by decide) (by decide) (by decide)
    refine ⟨f7, ?_, ?_⟩
    · simp only [flatten_audio_features, flattenSingle, singleStatsNames,
        List.foldl_cons, List.foldl_nil, scalar_head, hv]
      exact hok
    · intro k hk
      rw [hkeep k,
        find?_flattenSingleCore_ne _ _ "rms_stats" (fun a => single_key_ne (by decide) a k)]
      exact htarget _ "zero_crossing_rate_stats" k hk
  · obtain ⟨f7, hok, hkeep⟩ := flatten_bands_keep doc
      (flattenSingleCore v
        (flattenSingleCore (pyDictGet doc "zero_crossing_rate_stats" (J.obj []))
          (flattenSingleCore (pyDictGet doc "spectral_centroid_stats" (J.obj []))
            (flattenSingleCore (pyDictGet doc "chroma_stft_stats" (J.obj []))
              (scalarRow doc) "chroma_stft_stats")
            "spectral_centroid_stats")
          "zero_crossing_rate_stats")
        "rms_stats")
      hb "rms_stats" (by decide) (by decide) (by decide)
    refine ⟨f7, ?_, ?_⟩
    · simp only [flatten_audio_features, flattenSingle, singleStatsNames,
        List.foldl_cons, List.foldl_nil, scalar_head, hv]
      exact hok
    · intro k hk
      rw [hkeep k]
      exact htarget _ "rms_stats" k hk

theorem foldl_min_le_init : ∀ (l : List ℚ) (x : ℚ), l.foldl min x ≤ x := by
  intro l
  induction l with
  | nil => intro x; exact le_refl x
  | cons y l ih => intro x; exact le_trans (ih (min x y)) (min_le_left x y)

theorem foldl_min_le_mem : ∀ (l : List ℚ) (x y : ℚ), y ∈ l → l.foldl min x ≤ y := by
  intro l
  induction l with
  | nil => intro x y hy; cases hy
  | cons z l ih =>
    intro x y hy
    rcases List.mem_cons.1 hy with rfl | hy
    · exact le_trans (foldl_min_le_init l (min x y)) (min_le_right x y)
    · exact ih (min x z) y hy

theorem le_foldl_max_init : ∀ (l : List ℚ) (x : ℚ), x ≤ l.foldl max x := by
  intro l
  induction l with
  | nil => intro x; exact le_refl x
  | cons y l ih => intro x; exact le_trans (le_max_left x y) (ih (max x y))

theorem mem_le_foldl_max : ∀ (l : List ℚ) (x y : ℚ), y ∈ l → y ≤ l.foldl max x := by
  intro l
  induction l with
  | nil => intro x y hy; cases hy
  | cons z l ih =>
    intro x y hy
    rcases List.mem_cons.1 hy with rfl | hy
    · exact le_trans (le_max_right x y) (le_foldl_max_init l (max x y))
    · exact ih (max x z) y hy

theorem np_min_le {xs : List ℚ} {m : ℚ} (h : np_min xs = Except.ok m) :
    ∀ y ∈ xs, m ≤ y := by
  cases xs with
  | nil => simp [np_min] at h
  | cons x l =>
    have hm : m = l.foldl min x := by
      simpa [np_min] using h.symm
    subst hm
    intro y hy
    rcases List.mem_cons.1 hy with rfl | hy
    · exact foldl_min_le_init l y
    · exact foldl_min_le_mem l x y hy

theorem np_max_ge {xs : List ℚ} {m : ℚ} (h : np_max xs = Except.ok m) :
    ∀ y ∈ xs, y ≤ m := by
  cases xs with
  | nil => simp [np_max] at h
  | cons x l =>
    have hm : m = l.foldl max x := by
      simpa [np_max] using h.symm
    subst hm
    intro y hy
    rcases List.mem_cons.1 hy with rfl | hy
    · exact le_foldl_max_init l y
    · exact mem_le_foldl_max l x y hy

theorem np_mean_bounds {xs : List ℚ} (hne : xs ≠ []) {lo hi : ℚ}
    (hlo : ∀ y ∈ xs, lo ≤ y) (hhi : ∀ y ∈ xs, y ≤ hi) :
    lo ≤ np_mean xs ∧ np_mean xs ≤ hi := by
  have hpos : 0 < (xs.length : ℚ) := by
    have := List.length_pos.2 hne
    exact_mod_cast this
  have hsum1 : xs.length • lo ≤ xs.sum := List.card_nsmul_le_sum xs lo hlo
  have hsum2 : xs.sum ≤ xs.length • hi := List.sum_le_card_nsmul xs hi hhi
  rw [nsmul_eq_mul] at hsum1 hsum2
  unfold np_mean
  constructor
  · rw [le_div_iff₀ hpos]
    calc lo * xs.length = xs.length * lo := mul_comm _ _
    _ ≤ xs.sum := hsum1
  · rw [div_le_iff₀ hpos]
    calc xs.sum ≤ xs.length * hi := hsum2
    _ = hi * xs.length := mul_comm _ _

theorem np_median_bounds {xs : List ℚ} (hne : xs ≠ []) {lo hi : ℚ}
    (hlo : ∀ y ∈ xs, lo ≤ y) (hhi : ∀ y ∈ xs, y ≤ hi) :
    lo ≤ np_median xs ∧ np_median xs ≤ hi := by
  have hperm := List.mergeSort_perm xs (fun a b => decide (a ≤ b))
  have hlen : (xs.mergeSort (fun a b => decide (a ≤ b))).length = xs.length :=
    hperm.length_eq
  have hmem : ∀ (i : Nat) (hi' : i < (xs.mergeSort (fun a b => decide (a ≤ b))).length),
      lo ≤ (xs.mergeSort (fun a b => decide (a ≤ b)))[i] ∧
        (xs.mergeSort (fun a b => decide (a ≤ b)))[i] ≤ hi := by
    intro i hi'
    have hmm : (xs.mergeSort (fun a b => decide (a ≤ b)))[i] ∈ xs :=
      hperm.mem_iff.1 (List.getElem_mem hi')
    exact ⟨hlo _ hmm, hhi _ hmm⟩
  have hpos : 0 < xs.length := List.length_pos.2 hne
  unfold np_median
  by_cases hodd : xs.length % 2 = 1
  · rw [if_pos hodd]
    have hidx : xs.length / 2 < (xs.mergeSort (fun a b => decide (a ≤ b))).length := by
      rw [hlen]; omega
    rw [List.getD_eq_getElem?_getD, List.getElem?_eq_getElem hidx]
    simp only [Option.getD_some]
    exact hmem _ hidx
  · rw [if_neg hodd]
    have hidx2 : xs.length / 2 < (xs.mergeSort (fun a b => decide (a ≤ b))).length := by
      rw [hlen]; omega
    have hidx1 : xs.length / 2 - 1 < (xs.mergeSort (fun a b => decide (a ≤ b))).length := by
      rw [hlen]; omega
    rw [List.getD_eq_getElem?_getD, List.getD_eq_getElem?_getD,
      List.getElem?_eq_getElem hidx1, List.getElem?_eq_getElem hidx2]
    obtain ⟨ha1, ha2⟩ := hmem _ hidx1
    obtain ⟨hb1, hb2⟩ := hmem _ hidx2
    constructor
    · simp only [Option.getD_some]
      linarith
    · simp only [Option.getD_some]
      linarith

/-- Core helper: on any non-empty input, `detailed_stats` succeeds and
its summary has min ≤ median ≤ max and min ≤ mean ≤ max. -/
theorem detailed_stats_ok {xs : List ℚ} (hne : xs ≠ []) :
    ∃ s, detailed_stats xs = Except.ok s ∧ s.min ≤ s.median ∧ s.median ≤ s.max
      ∧ s.min ≤ s.mean ∧ s.mean ≤ s.max := by
  cases xs with
  | nil => exact absurd rfl hne
  | cons x l =>
    refine ⟨⟨np_mean (x :: l), np_var (x :: l), np_median (x :: l), scipy_skew (x :: l),
      scipy_kurtosis (x :: l), l.foldl min x, l.foldl max x⟩, rfl, ?_, ?_, ?_, ?_⟩
    all_goals
      have hlo : ∀ y ∈ x :: l, l.foldl min x ≤ y := np_min_le rfl
      have hhi : ∀ y ∈ x :: l, y ≤ l.foldl max x := np_max_ge rfl
      have hmed := np_median_bounds (List.cons_ne_nil x l) hlo hhi
      have hmean := np_mean_bounds (List.cons_ne_nil x l) hlo hhi
    · exact hmed.1
    · exact hmed.2
    · exact hmean.1
    · exact hmean.2

theorem mapM_ok_of_ok {α β : Type} (g : α → Except String β) :
    ∀ (l : List α), (∀ x ∈ l, ∃ y, g x = Except.ok y) →
      ∃ ys, l.mapM g = Except.ok ys ∧ ys.length = l.length ∧
        ∀ (i : Nat) (hi : i < l.length) (hi' : i < ys.length),
          g (l.get ⟨i, hi⟩) = Except.ok (ys.get ⟨i, hi'⟩) := by
  intro l
  induction l with
  | nil =>
    intro _
    exact ⟨[], rfl, rfl, fun i hi _ => absurd hi (by simp)⟩
  | cons x l ih =>
    intro h
    obtain ⟨y, hy⟩ := h x (List.mem_cons_self _ _)
    obtain ⟨ys, hys, hlen, hidx⟩ := ih (fun x' hx' => h x' (List.mem_cons_of_mem _ hx'))
    refine ⟨y :: ys, ?_, by simp [hlen], ?_⟩
    · rw [List.mapM_cons, hy, exc_bind_ok, hys, exc_bind_ok]
      rfl
    · intro i hi hi'
      cases i with
      | zero => exact hy
      | succ n => exact hidx n (by simpa using hi) (by simpa using hi')

/-- Core helper: when every resolved document flattens successfully, the
merged table exists, has one row per catalog row in the same order, and
each row pairs the catalog row with its flat feature row. -/
theorem mainTable_ok (rows : List CatalogRow) (resolve : CatalogRow → Option JDoc)
    (h : ∀ r ∈ rows, ∃ f, rowFeatures resolve r = Except.ok f) :
    ∃ t, mainTable rows resolve = Except.ok t ∧ t.length = rows.length ∧
      t.map Prod.fst = rows ∧
      ∀ (i : Nat) (hi : i < rows.length) (hi' : i < t.length),
        ∃ f, rowFeatures resolve (rows.get ⟨i, hi⟩) = Except.ok f ∧
          t.get ⟨i, hi'⟩ = (rows.get ⟨i, hi⟩, f) := by
  obtain ⟨fs, hfs, hlen, hidx⟩ := mapM_ok_of_ok (rowFeatures resolve) rows h
  refine ⟨rows.zip fs, ?_, ?_, ?_, ?_⟩
  · simp only [mainTable]
    rw [hfs, exc_bind_ok]
    rfl
  · rw [List.length_zip, hlen, Nat.min_self]
  · exact List.map_fst_zip rows fs (by rw [hlen])
  · intro i hi hi'
    have hfl : i < fs.length := by rw [hlen]; exact hi
    refine ⟨fs.get ⟨i, hfl⟩, hidx i hi hfl, ?_⟩
    simp only [List.get_eq_getElem]
    exact List.getElem_zip

/-- C1 (counterexample): flattening a present, well-formed bundle emits
263 distinct columns, not 249 as the claim states — the spec's
4 + 4·7 + 20·7 + 7·7 + 6·7 sums to 263. -/
theorem C1_schema_not_249 :
    (flatten_audio_features sampleBundle).isOk = true ∧
    okKeys (flatten_audio_features sampleBundle) = fullSchema ∧
    fullSchema.Nodup ∧ fullSchema.length = 263 ∧ fullSchema.length ≠ 249 := by
  obtain ⟨row, h1, h2⟩ := flatten_sample
  refine ⟨by rw [h1]; rfl, by rw [h1]; simpa [okKeys] using h2, fullSchema_nodup,
    fullSchema_length, by rw [fullSchema_length]; decide⟩

/-- C1 (amended): for every present, well-formed FeatureBundle the
flattener produces exactly 263 distinct columns over the full fixed
schema (4 scalars + 7 stats for each of the 4 single fields, 20 mfcc
bands, 7 spectral-contrast bands and 6 tonnetz bands). -/
theorem C1_wellformed_263_distinct_columns (doc : JDoc) (h : WellFormedDoc doc) :
    ∃ row, flatten_audio_features doc = Except.ok row ∧ keysOf row = fullSchema ∧
      fullSchema.Nodup ∧ fullSchema.length = 263 := by
  obtain ⟨row, h1, h2⟩ := flatten_wellformed doc h
  exact ⟨row, h1, h2, fullSchema_nodup, fullSchema_length⟩

theorem C1_wellformed_263_distinct_columns_witness :
    WellFormedDoc sampleBundle ∧
    ∃ row, flatten_audio_features sampleBundle = Except.ok row ∧ keysOf row = fullSchema ∧
      fullSchema.Nodup ∧ fullSchema.length = 263 :=
  ⟨sampleBundle_wellformed,
    C1_wellformed_263_distinct_columns sampleBundle sampleBundle_wellformed⟩

/-- C2 (code bug): `flatten_audio_features({})` does not produce the same
column set as for a present bundle: because `audio_data.get(name, {})`
defaults to `{}` — a dict with no items — the four single-stats fields
emit nothing, so the absent-bundle row has only 235 of the 263 columns;
the 28 `field_stat` columns (e.g. `chroma_stft_stats_mean`) are omitted
entirely, contradicting both the spec and the code's own comments
(lines 34 and 118–121).  The values that are emitted are all the `None`
sentinel, as specified. -/
theorem C2_empty_doc_omits_single_stats_columns :
    flatten_audio_features [] = Except.ok emptyFlatRow ∧
    keysOf emptyFlatRow = emptySchema ∧
    (∀ p ∈ emptyFlatRow, p.2 = J.null) ∧
    emptySchema.length = 235 ∧ fullSchema.length = 263 ∧
    ("chroma_stft_stats" ++ "_" ++ "mean") ∈ fullSchema ∧
    ("chroma_stft_stats" ++ "_" ++ "mean") ∉ emptySchema := by
  refine ⟨flatten_nil, keysOf_nullPairs _, ?_, emptySchema_length, fullSchema_length,
    by decide, by decide⟩
  intro p hp
  simp only [emptyFlatRow, nullPairs, List.mem_map] at hp
  obtain ⟨k, _, rfl⟩ := hp
  rfl

/-- C3: column-name generation is injective and total over the fixed
schema: distinct (field, index, stat) triples get distinct names, every
triple yields exactly one column, and together with the four scalars the
names are exactly the full schema the flattener emits. -/
theorem C3_column_names_injective_total :
    (schemaTriples.map colName).Nodup ∧
    (∀ t1 ∈ schemaTriples, ∀ t2 ∈ schemaTriples, colName t1 = colName t2 → t1 = t2) ∧
    (∀ t ∈ schemaTriples, (schemaTriples.map colName).count (colName t) = 1) ∧
    scalarCols ++ schemaTriples.map colName = fullSchema := by
  have hmap : schemaTriples.map colName = allPrefixes.flatMap blockCols := by rfl
  have hnd : (schemaTriples.map colName).Nodup := by
    rw [hmap]
    have h := schema_prefixes_pairwise_sep
    rw [List.pairwise_append] at h
    exact nodup_flatMap_blockCols h.2.1
  refine ⟨hnd, fun t1 h1 t2 h2 he => List.inj_on_of_nodup_map hnd h1 h2 he, ?_, ?_⟩
  · intro t ht
    exact List.count_eq_one_of_mem hnd (List.mem_map_of_mem _ ht)
  · rw [hmap]
    rfl

theorem C3_column_names_injective_total_witness :
    (("chroma_stft_stats", (none : Option Nat), "mean") ∈ schemaTriples) ∧
    (schemaTriples.map colName).count
      (colName ("chroma_stft_stats", (none : Option Nat), "mean")) = 1 :=
  ⟨by decide, C3_column_names_injective_total.2.2.1 _ (by decide)⟩

/-- C4: the join preserves row count and input order — for every catalog
of N rows whose resolved documents flatten successfully, the merged
table has exactly N rows, one per input row, in the same order, however
many artifacts are missing. -/
theorem C4_join_preserves_rows (rows : List CatalogRow) (resolve : CatalogRow → Option JDoc)
    (h : ∀ r ∈ rows, ∃ f, rowFeatures resolve r = Except.ok f) :
    ∃ t, mainTable rows resolve = Except.ok t ∧ t.length = rows.length ∧
      t.map Prod.fst = rows := by
  obtain ⟨t, h1, h2, h3, _⟩ := mainTable_ok rows resolve h
  exact ⟨t, h1, h2, h3⟩

theorem C4_join_preserves_rows_witness :
    (∀ r ∈ [row0, row1], ∃ f, rowFeatures (fun _ => none) r = Except.ok f) ∧
    ∃ t, mainTable [row0, row1] (fun _ => none) = Except.ok t ∧
      t.length = [row0, row1].length ∧ t.map Prod.fst = [row0, row1] := by
  have h : ∀ r ∈ [row0, row1], ∃ f, rowFeatures (fun _ => none) r = Except.ok f :=
    fun r _ => ⟨emptyFlatRow, flatten_nil⟩
  exact ⟨h, C4_join_preserves_rows [row0, row1] (fun _ => none) h⟩

/-- C5 (counterexample): runs with zero, one and two missing-artifact
rows all emit the identical single success line — the run output carries
no degraded-row summary and no degraded count. -/
theorem C5_no_degraded_summary :
    mainMessages [row0] (fun _ => none) = Except.ok [successMessage] ∧
    mainMessages [row0] (fun _ => some sampleBundle) = Except.ok [successMessage] ∧
    mainMessages [row0, row1] (fun _ => none) = Except.ok [successMessage] := by
  obtain ⟨srow, hs, _⟩ := flatten_sample
  refine ⟨?_, ?_, ?_⟩
  · simp only [mainMessages, mainTable, List.mapM_cons, List.mapM_nil,
      show rowFeatures (fun _ => none) row0 = Except.ok emptyFlatRow from flatten_nil,
      exc_bind_ok, exc_pure_eq]
  · simp only [mainMessages, mainTable, List.mapM_cons, List.mapM_nil,
      show rowFeatures (fun _ => some sampleBundle) row0 = Except.ok srow from hs,
      exc_bind_ok, exc_pure_eq]
  · simp only [mainMessages, mainTable, List.mapM_cons, List.mapM_nil,
      show rowFeatures (fun _ => none) row0 = Except.ok emptyFlatRow from flatten_nil,
      show rowFeatures (fun _ => none) row1 = Except.ok emptyFlatRow from flatten_nil,
      exc_bind_ok, exc_pure_eq]

/-- C5 (amended): rows with no resolvable artifact never raise out of the
join — each degrades to the flat row of the empty document (which, by
C2's bug, omits the single-stats columns) and the table keeps one row
per input — but the run ends with only the fixed success message, with
no degraded-row summary and no degraded count. -/
theorem C5_missing_rows_degrade_silently (rows : List CatalogRow)
    (resolve : CatalogRow → Option JDoc)
    (h : ∀ r doc, resolve r = some doc → ∃ f, flatten_audio_features doc = Except.ok f) :
    ∃ t, mainTable rows resolve = Except.ok t ∧ t.length = rows.length ∧
      (∀ (i : Nat) (hi : i < rows.length) (hi' : i < t.length),
        resolve (rows.get ⟨i, hi⟩) = none →
          t.get ⟨i, hi'⟩ = (rows.get ⟨i, hi⟩, emptyFlatRow)) ∧
      mainMessages rows resolve = Except.ok [successMessage] := by
  have h' : ∀ r ∈ rows, ∃ f, rowFeatures resolve r = Except.ok f := by
    intro r _
    cases hres : resolve r with
    | none =>
      refine ⟨emptyFlatRow, ?_⟩
      simp only [rowFeatures, hres]
      exact flatten_nil
    | some doc =>
      obtain ⟨f, hf⟩ := h r doc hres
      refine ⟨f, ?_⟩
      simp only [rowFeatures, hres]
      exact hf
  obtain ⟨t, h1, h2, _, h4⟩ := mainTable_ok rows resolve h'
  refine ⟨t, h1, h2, ?_, ?_⟩
  · intro i hi hi' hnone
    obtain ⟨f, hf, hteq⟩ := h4 i hi hi'
    have hok : (Except.ok f : Except String JDoc) = Except.ok emptyFlatRow := by
      rw [← hf]
      simp only [rowFeatures, hnone]
      exact flatten_nil
    have hfe : f = emptyFlatRow := by injection hok
    rw [hteq, hfe]
  · simp only [mainMessages]
    rw [h1, exc_bind_ok]
    rfl

theorem C5_missing_rows_degrade_silently_witness :
    (∀ (r : CatalogRow) (doc : JDoc), (fun (_ : CatalogRow) => (none : Option JDoc)) r = some doc →
      ∃ f, flatten_audio_features doc = Except.ok f) ∧
    ∃ t, mainTable [row0, row1] (fun _ => none) = Except.ok t ∧
      t.length = [row0, row1].length ∧
      (∀ (i : Nat) (hi : i < [row0, row1].length) (hi' : i < t.length),
        (fun (_ : CatalogRow) => (none : Option JDoc)) ([row0, row1].get ⟨i, hi⟩) = none →
          t.get ⟨i, hi'⟩ = ([row0, row1].get ⟨i, hi⟩, emptyFlatRow)) ∧
      mainMessages [row0, row1] (fun _ => none) = Except.ok [successMessage] := by
  have h : ∀ (r : CatalogRow) (doc : JDoc),
      (fun (_ : CatalogRow) => (none : Option JDoc)) r = some doc →
      ∃ f, flatten_audio_features doc = Except.ok f := fun r doc hc => nomatch hc
  exact ⟨h, C5_missing_rows_degrade_silently [row0, row1] (fun _ => none) h⟩

/-- C6: `detailed_stats` on a zero-element array fails — `np.min` raises
`ValueError` on a zero-size array — and never returns a zero-filled
summary.  (The spec's `EmptyInputError` is realised as this raised
`ValueError`.) -/
theorem C6_empty_input_fails :
    detailed_stats ([] : List ℚ)
      = Except.error
          "ValueError: zero-size array to reduction operation minimum which has no identity"
    ∧ (detailed_stats ([] : List ℚ)).isOk = false := ⟨rfl, rfl⟩

/-- C7: for every non-empty numeric array, the summary returned by
`detailed_stats` satisfies min ≤ median ≤ max and min ≤ mean ≤ max. -/
theorem C7_summary_bounds (xs : List ℚ) (h : xs ≠ []) :
    ∃ s, detailed_stats xs = Except.ok s ∧ s.min ≤ s.median ∧ s.median ≤ s.max
      ∧ s.min ≤ s.mean ∧ s.mean ≤ s.max := detailed_stats_ok h

theorem C7_summary_bounds_witness :
    (([3, 1, 2] : List ℚ) ≠ []) ∧
    ∃ s, detailed_stats ([3, 1, 2] : List ℚ) = Except.ok s ∧ s.min ≤ s.median
      ∧ s.median ≤ s.max ∧ s.min ≤ s.mean ∧ s.mean ≤ s.max :=
  ⟨by decide, C7_summary_bounds [3, 1, 2] (by decide)⟩

/-- C8 (counterexample): a persisted bundle whose `mfcc_stats` array has
the wrong length (1 instead of 20) does not make the flattener fail: it
returns normally with a 130-column partially-flattened row. -/
theorem C8_malformed_flattens_without_error :
    (flatten_audio_features mfccShortDoc).isOk = true ∧
    okKeys (flatten_audio_features mfccShortDoc) = mfccShortSchema ∧
    mfccShortSchema.length = 130 ∧ mfccShortSchema ≠ fullSchema := by
  obtain ⟨row, h1, h2⟩ := flatten_mfccShort
  refine ⟨by rw [h1]; rfl, by rw [h1]; simpa [okKeys] using h2,
    mfccShortSchema_length, ?_⟩
  intro he
  have hlen := congrArg List.length he
  rw [mfccShortSchema_length, fullSchema_length] at hlen
  exact absurd hlen (by decide)

/-- C8 (amended): the flattener performs no schema validation and raises
no `SchemaMismatchError`: a wrong-length band array yields columns for
exactly the indices present (a partially flattened row), missing fields
yield fallback columns (none at all for the single-stats fields, `None`
columns for the band fields), and the only failure mode is the untyped
`AttributeError` raised when a band array holds a non-dict element. -/
theorem C8_no_schema_validation :
    (flatten_audio_features mfccShortDoc).isOk = true ∧
    okKeys (flatten_audio_features mfccShortDoc) = mfccShortSchema ∧
    flatten_audio_features [] = Except.ok emptyFlatRow ∧
    keysOf emptyFlatRow = emptySchema ∧ emptySchema.length = 235 ∧
    flatten_audio_features badBandDoc
      = Except.error "AttributeError: object has no attribute items" := by
  obtain ⟨row, h1, h2⟩ := flatten_mfccShort
  exact ⟨by rw [h1]; rfl, by rw [h1]; simpa [okKeys] using h2, flatten_nil,
    keysOf_nullPairs _, emptySchema_length, flatten_badBand⟩

/-- C9: the stored danceability equals
`clip((tempo/200) * beat_strength * 10, 0, 1)` with `beat_strength` the
mean RMS energy at the detected beat frames; it always lies in [0, 1],
and pre-clamp values outside that range are clamped, not an error. -/
theorem C9_danceability_clipped (tempo : ℚ) (rms0 : List ℚ) (beat_frames : List Nat)
    (_hne : beat_frames ≠ []) (_hin : ∀ i ∈ beat_frames, i < rms0.length) :
    danceability tempo rms0 beat_frames
      = np_clip ((tempo / 200) * beat_strength rms0 beat_frames * 10) 0 1
    ∧ 0 ≤ danceability tempo rms0 beat_frames
    ∧ danceability tempo rms0 beat_frames ≤ 1
    ∧ (1 < danceability_raw tempo rms0 beat_frames →
        danceability tempo rms0 beat_frames = 1)
    ∧ (danceability_raw tempo rms0 beat_frames < 0 →
        danceability tempo rms0 beat_frames = 0) := by
  refine ⟨rfl, le_min (le_max_right _ _) zero_le_one, min_le_right _ _, ?_, ?_⟩
  · intro hgt
    unfold danceability np_clip
    rw [max_eq_left (le_trans zero_le_one (le_of_lt hgt)), min_eq_right (le_of_lt hgt)]
  · intro hlt
    unfold danceability np_clip
    rw [max_eq_right (le_of_lt hlt)]
    exact min_eq_left zero_le_one

theorem C9_danceability_clipped_witness :
    (([0, 1] : List Nat) ≠ []) ∧ (∀ i ∈ ([0, 1] : List Nat), i < ([1/2, 1/4] : List ℚ).length) ∧
    (danceability 100 [1/2, 1/4] [0, 1]
        = np_clip ((100 / 200) * beat_strength [1/2, 1/4] [0, 1] * 10) 0 1
      ∧ 0 ≤ danceability 100 [1/2, 1/4] [0, 1]
      ∧ danceability 100 [1/2, 1/4] [0, 1] ≤ 1
      ∧ (1 < danceability_raw 100 [1/2, 1/4] [0, 1] → danceability 100 [1/2, 1/4] [0, 1] = 1)
      ∧ (danceability_raw 100 [1/2, 1/4] [0, 1] < 0 →
          danceability 100 [1/2, 1/4] [0, 1] = 0)) :=
  ⟨by decide, by decide, C9_danceability_clipped 100 [1/2, 1/4] [0, 1] (by decide) (by decide)⟩

/-- C10 (counterexample): a dictionary whose `chroma_stft_stats` is a
non-dict does not always flatten normally — here an unrelated malformed
`mfcc_stats` band makes the whole flattening raise `AttributeError`. -/
theorem C10_band_nondict_crashes :
    pyDictGet badBandDoc "chroma_stft_stats" (J.obj []) = J.num 5 ∧
    flatten_audio_features badBandDoc
      = Except.error "AttributeError: object has no attribute items" := ⟨rfl, flatten_badBand⟩

/-- C10 (amended): when a single-stats field holds a non-dict value and
the multi-band arrays do not independently crash the band loops, the
flattener returns normally, emits all seven stat columns for that field
with the `None` sentinel, and the non-dict value never reaches those
columns. -/
theorem C10_nondict_single_null_columns (doc : JDoc) (name : String) (v : J)
    (hname : name ∈ singleStatsNames) (hv : pyDictGet doc name (J.obj []) = v)
    (hno : ∀ kvs, v ≠ J.obj kvs) (hb : BandsOk doc) :
    ∃ row, flatten_audio_features doc = Except.ok row ∧
      ∀ k ∈ statKeys, row.find? (fun p => p.1 == name ++ "_" ++ k)
        = some (name ++ "_" ++ k, J.null) :=
  flatten_nondict_single doc name v hname hv hno hb

theorem C10_nondict_single_null_columns_witness :
    ("chroma_stft_stats" ∈ singleStatsNames) ∧
    (pyDictGet [("chroma_stft_stats", J.num 5)] "chroma_stft_stats" (J.obj []) = J.num 5) ∧
    (∀ kvs, J.num 5 ≠ J.obj kvs) ∧ BandsOk [("chroma_stft_stats", J.num 5)] ∧
    ∃ row, flatten_audio_features [("chroma_stft_stats", J.num 5)] = Except.ok row ∧
      ∀ k ∈ statKeys, row.find? (fun p => p.1 == "chroma_stft_stats" ++ "_" ++ k)
        = some ("chroma_stft_stats" ++ "_" ++ k, J.null) := by
  have h1 : "chroma_stft_stats" ∈ singleStatsNames := by decide
  have h2 : pyDictGet [("chroma_stft_stats", J.num 5)] "chroma_stft_stats" (J.obj [])
      = J.num 5 := rfl
  have h3 : ∀ kvs, J.num 5 ≠ J.obj kvs := fun kvs hc => nomatch hc
  have h4 : BandsOk [("chroma_stft_stats", J.num 5)] := by
    intro bname hbm items hit o ho
    rcases (by simpa using hbm :
        bname = "mfcc_stats" ∨ bname = "spectral_contrast_stats" ∨ bname = "tonnetz_stats")
      with rfl | rfl | rfl
    all_goals
      have harr : J.arr ([] : List J) = J.arr items := hit
      injection harr with he
      rw [← he] at ho
      cases ho
  exact ⟨h1, h2, h3, h4, C10_nondict_single_null_columns _ _ _ h1 h2 h3 h4⟩
